import Mathlib

set_option maxRecDepth 10000

/-!
# Verification of the HVP archive library (obscure-hvp)

A shallow embedding of the core of the `hvp-archive` crate: the per-file
wrapping checksum, CRC32 TOC checksums, game autodetection, the three binary
codecs (Variant A "Obscure 1", Variant B "Obscure 2", Variant C "Final Exam"),
the provider's entry validation, the unified archive model, and the rebuild
engine.  Bytes are modelled as `List Nat` (each element a value `< 256` where
it comes from a file), machine integers as `Nat`/`Int` with explicit wrapping,
and fallible code as `Option`.
-/

namespace Hvp

/-- The byte order of an archive (`binrw::Endian`). -/
inductive Endian where
  | little
  | big
deriving DecidableEq, Repr

/-- Two's-complement reduction of an integer into the signed 32-bit range
`[-2^31, 2^31)`; this is the wrap-around behaviour of Rust `i32` arithmetic. -/
def wrap32 (z : Int) : Int := (z + 2 ^ 31) % 2 ^ 32 - 2 ^ 31

/-- `i32::wrapping_add`. -/
def wadd (a b : Int) : Int := wrap32 (a + b)

/-- The `u32` value of four bytes in little-endian order. -/
def u32FromLeBytes (b0 b1 b2 b3 : Nat) : Nat :=
  b0 + 256 * b1 + 65536 * b2 + 16777216 * b3

/-- `i32::from_le_bytes`: reinterpret the little-endian `u32` value as a
signed 32-bit integer. -/
def i32FromLeBytes (b0 b1 b2 b3 : Nat) : Int :=
  wrap32 (u32FromLeBytes b0 b1 b2 b3 : Int)

/-- `i32::from_be_bytes`. -/
def i32FromBeBytes (b0 b1 b2 b3 : Nat) : Int := i32FromLeBytes b3 b2 b1 b0

/-- The signed 32-bit value of one 4-byte word consumed in the given byte
order. -/
def wordVal (e : Endian) (b0 b1 b2 b3 : Nat) : Int :=
  match e with
  | .little => i32FromLeBytes b0 b1 b2 b3
  | .big => i32FromBeBytes b0 b1 b2 b3

/-- `slice::chunks_exact(4)` together with its `remainder()`: the list of
exact 4-byte chunks and the trailing 0-3 bytes. -/
def chunksExact4 : List Nat → List (Nat × Nat × Nat × Nat) × List Nat
  | b0 :: b1 :: b2 :: b3 :: rest =>
      let p := chunksExact4 rest
      ((b0, b1, b2, b3) :: p.1, p.2)
  | rest => ([], rest)

/-- `structures/checksum.rs::bytes_sum`: the per-file wrapping checksum.
The input is split into exact 4-byte chunks plus a remainder; the chunks are
read as little-endian `i32` words and folded with `wrapping_add` from `0`;
the remainder bytes are folded likewise as unsigned byte values; finally the
two sums are combined with `wrapping_add`. -/
def bytes_sum (data : List Nat) : Int :=
  let p := chunksExact4 data
  let chunksSum := p.1.foldl (fun acc c => wadd acc (i32FromLeBytes c.1 c.2.1 c.2.2.1 c.2.2.2)) 0
  let remainderSum := p.2.foldl (fun acc (b : Nat) => wadd acc (b : Int)) 0
  wadd chunksSum remainderSum

/-- Modelled from the spec: the two-argument, endian-aware form of `bytes_sum`
that `archive/entry.rs`, `archive/obscure1.rs` and `archive/final_exam.rs`
call is not present under `src/` (only its little-endian-only predecessor in
`structures/checksum.rs` is).  Per the spec, the little-endian behaviour is
that of the source `bytes_sum`, and for a big-endian archive the 4-byte words
are instead consumed in big-endian order (trailing bytes unchanged). -/
def bytes_sum_endian (data : List Nat) (e : Endian) : Int :=
  let p := chunksExact4 data
  let chunksSum := p.1.foldl (fun acc c => wadd acc (wordVal e c.1 c.2.1 c.2.2.1 c.2.2.2)) 0
  let remainderSum := p.2.foldl (fun acc (b : Nat) => wadd acc (b : Int)) 0
  wadd chunksSum remainderSum

/-- The spec's reference definition of the wrapping byte sum, written from the
spec's words: interpret the input as a stream of 4-byte signed words in the
archive's byte order, summed with two's-complement wrap-around; trailing 1-3
bytes are added as unsigned byte values; empty input yields 0. -/
def specWrappingSum (e : Endian) : List Nat → Int
  | b0 :: b1 :: b2 :: b3 :: rest => wadd (wordVal e b0 b1 b2 b3) (specWrappingSum e rest)
  | b :: rest => wadd (b : Int) (specWrappingSum e rest)
  | [] => 0

/-! ## Arithmetic lemmas about `wrap32` -/

theorem wrap32_add_left (a b : Int) : wrap32 (wrap32 a + b) = wrap32 (a + b) := by
  simp only [wrap32]
  have h31 : (2 : Int) ^ 31 = 2147483648 := by norm_num
  have h32 : (2 : Int) ^ 32 = 4294967296 := by norm_num
  rw [h31, h32]
  omega

theorem wrap32_add_right (a b : Int) : wrap32 (a + wrap32 b) = wrap32 (a + b) := by
  rw [add_comm a (wrap32 b), wrap32_add_left, add_comm]

theorem wrap32_zero : wrap32 0 = 0 := by decide

theorem wadd_eq (a b : Int) : wadd a b = wrap32 (a + b) := rfl

/-! ## `bytes_sum` agrees with the spec's reference definition -/

/-- The unwrapped (mathematical-integer) word-plus-remainder sum, a common
reference point for the fold-order proofs. -/
def rawSum (e : Endian) : List Nat → Int
  | b0 :: b1 :: b2 :: b3 :: rest => wordVal e b0 b1 b2 b3 + rawSum e rest
  | b :: rest => (b : Int) + rawSum e rest
  | [] => 0

theorem specWrappingSum_eq_wrap_rawSum (e : Endian) :
    ∀ l : List Nat, specWrappingSum e l = wrap32 (rawSum e l)
  | [] => wrap32_zero.symm
  | [b] => rfl
  | [b, c] => by
      show wadd (b : Int) (wadd (c : Int) 0) = wrap32 ((b : Int) + ((c : Int) + 0))
      rw [wadd_eq, wadd_eq, wrap32_add_right]
  | [b, c, d] => by
      show wadd (b : Int) (wadd (c : Int) (wadd (d : Int) 0)) =
        wrap32 ((b : Int) + ((c : Int) + ((d : Int) + 0)))
      simp only [wadd_eq, wrap32_add_right]
  | b0 :: b1 :: b2 :: b3 :: rest => by
      have ih := specWrappingSum_eq_wrap_rawSum e rest
      show wadd (wordVal e b0 b1 b2 b3) (specWrappingSum e rest) =
        wrap32 (wordVal e b0 b1 b2 b3 + rawSum e rest)
      rw [ih, wadd_eq, wrap32_add_right]

theorem foldl_wadd_eq (f : α → Int) (l : List α) (acc : Int) :
    l.foldl (fun acc c => wadd acc (f c)) (wrap32 acc) =
      wrap32 (acc + (l.map f).sum) := by
  induction l generalizing acc with
  | nil => simp
  | cons x xs ih =>
      rw [List.foldl_cons]
      have h1 : wadd (wrap32 acc) (f x) = wrap32 (acc + f x) := by
        rw [wadd_eq, wrap32_add_left]
      rw [h1, ih]
      simp [add_assoc]

/-- `rawSum` decomposes along `chunksExact4`. -/
theorem rawSum_eq_chunks (e : Endian) :
    ∀ l : List Nat, rawSum e l =
      ((chunksExact4 l).1.map (fun c => wordVal e c.1 c.2.1 c.2.2.1 c.2.2.2)).sum +
      ((chunksExact4 l).2.map (fun b : Nat => (b : Int))).sum
  | [] => by simp [rawSum, chunksExact4]
  | [b] => by simp [rawSum, chunksExact4]
  | [b, c] => by
      show (b : Int) + ((c : Int) + 0) = 0 + ((b : Int) + ((c : Int) + 0))
      ring
  | [b, c, d] => by
      show (b : Int) + ((c : Int) + ((d : Int) + 0)) =
        0 + ((b : Int) + ((c : Int) + ((d : Int) + 0)))
      ring
  | b0 :: b1 :: b2 :: b3 :: rest => by
      have ih := rawSum_eq_chunks e rest
      have h1 : rawSum e (b0 :: b1 :: b2 :: b3 :: rest) =
          wordVal e b0 b1 b2 b3 + rawSum e rest := rfl
      have h2 : chunksExact4 (b0 :: b1 :: b2 :: b3 :: rest) =
          ((b0, b1, b2, b3) :: (chunksExact4 rest).1, (chunksExact4 rest).2) := rfl
      rw [h1, h2, ih]
      simp [add_assoc]

theorem foldl_wadd_chunks (e : Endian) (l : List (Nat × Nat × Nat × Nat)) :
    l.foldl (fun acc c => wadd acc (wordVal e c.1 c.2.1 c.2.2.1 c.2.2.2)) 0 =
      wrap32 ((l.map (fun c => wordVal e c.1 c.2.1 c.2.2.1 c.2.2.2)).sum) := by
  have h := foldl_wadd_eq
    (fun c : Nat × Nat × Nat × Nat => wordVal e c.1 c.2.1 c.2.2.1 c.2.2.2) l 0
  rw [wrap32_zero] at h
  simpa using h

theorem foldl_wadd_bytes (l : List Nat) :
    l.foldl (fun acc (b : Nat) => wadd acc (b : Int)) 0 =
      wrap32 ((l.map (fun b : Nat => (b : Int))).sum) := by
  have h := foldl_wadd_eq (fun b : Nat => (b : Int)) l 0
  rw [wrap32_zero] at h
  simpa using h

theorem bytes_sum_endian_eq_spec (data : List Nat) (e : Endian) :
    bytes_sum_endian data e = specWrappingSum e data := by
  rw [specWrappingSum_eq_wrap_rawSum, rawSum_eq_chunks]
  simp only [bytes_sum_endian]
  rw [foldl_wadd_chunks, foldl_wadd_bytes, wadd_eq, wrap32_add_left, wrap32_add_right]

theorem bytes_sum_eq_endian_little (data : List Nat) :
    bytes_sum data = bytes_sum_endian data .little := rfl

/-! ## Game autodetection -/

/-- `lib.rs::Game`: the games this build of the library knows; note there is
no Variant C (Final Exam) member. -/
inductive Game where
  | obscure1
  | obscure2
deriving DecidableEq, Repr

/-- `utils.rs::try_detect_game`, applied to the first 8 bytes of the file.
The source seeks to the start, reads exactly 8 bytes, restores the reader
position and matches the buffer; the I/O bookkeeping is elided. -/
def try_detect_game (buf : List Nat) : Option Game :=
  if buf = [0x48, 0x56, 0x20, 0x50, 0x61, 0x63, 0x6B, 0x46] then some .obscure1
  else if buf = [0x00, 0x00, 0x04, 0x00, 0x00, 0x00, 0x00, 0x00] ∨
          buf = [0x00, 0x04, 0x00, 0x00, 0x00, 0x00, 0x00, 0x00] then some .obscure2
  else none

/-! ## Byte-stream primitives

Binary input is a `List Nat`; a reader consumes a prefix and returns the
value and the remaining bytes, `none` on end-of-stream (an I/O error in the
source).  Multi-byte integers follow `binrw`'s endian-aware codecs. -/

abbrev Bytes := List Nat

/-- Sequencing of reader steps (the `?` operator on reads): run the first
reader and feed its value and remaining input to the continuation. -/
def pbind (x : Option (α × Bytes)) (f : α → Bytes → Option (β × Bytes)) :
    Option (β × Bytes) :=
  match x with
  | none => none
  | some (a, bs) => f a bs

/-- A `binrw` assert: continue only when the condition holds. -/
def pguard (c : Prop) [Decidable c] (k : Option α) : Option α :=
  if c then k else none

theorem pbind_eq_some {x : Option (α × Bytes)} {f : α → Bytes → Option (β × Bytes)}
    {r : β × Bytes} :
    pbind x f = some r ↔ ∃ a bs, x = some (a, bs) ∧ f a bs = some r := by
  cases x with
  | none => simp [pbind]
  | some p =>
      cases p with
      | mk a bs =>
          simp only [pbind, Option.some.injEq]
          constructor
          · intro h; exact ⟨a, bs, rfl, h⟩
          · rintro ⟨a', bs', h1, h2⟩
            obtain ⟨rfl, rfl⟩ : a = a' ∧ bs = bs' :=
              ⟨congrArg Prod.fst h1, congrArg Prod.snd h1⟩
            exact h2

theorem pguard_eq_some {c : Prop} [Decidable c] {k : Option α} {r : α} :
    pguard c k = some r ↔ c ∧ k = some r := by
  by_cases h : c <;> simp [pguard, h]

/-- Read a single byte. -/
def readU8 : Bytes → Option (Nat × Bytes)
  | [] => none
  | b :: rest => some (b, rest)

/-- Read a `u16` in the given byte order. -/
def readU16 (e : Endian) (bs : Bytes) : Option (Nat × Bytes) :=
  pbind (readU8 bs) fun b0 bs =>
  pbind (readU8 bs) fun b1 bs =>
  match e with
  | .little => some (b0 + 256 * b1, bs)
  | .big => some (b1 + 256 * b0, bs)

/-- Read a `u32` in the given byte order. -/
def readU32 (e : Endian) (bs : Bytes) : Option (Nat × Bytes) :=
  pbind (readU8 bs) fun b0 bs =>
  pbind (readU8 bs) fun b1 bs =>
  pbind (readU8 bs) fun b2 bs =>
  pbind (readU8 bs) fun b3 bs =>
  match e with
  | .little => some (u32FromLeBytes b0 b1 b2 b3, bs)
  | .big => some (u32FromLeBytes b3 b2 b1 b0, bs)

/-- Read an `i32` in the given byte order (the `u32` value reinterpreted as
signed). -/
def readI32 (e : Endian) (bs : Bytes) : Option (Int × Bytes) :=
  pbind (readU32 e bs) fun v bs => some (wrap32 (v : Int), bs)

/-- `binrw` magic handling: require the exact byte string `magic` as prefix
and consume it. -/
def expectBytes (magic bs : Bytes) : Option Bytes :=
  if bs.take magic.length = magic then some (bs.drop magic.length) else none

/-! ## The unified entry model (`archive/entry.rs`) -/

/-- `archive/entry.rs::CompressionType`. -/
inductive CompressionType where
  | zlib
  | lzo
deriving DecidableEq, Repr

/-- `archive/entry.rs::CompressionInfo`. -/
structure CompressionInfo where
  uncompressed_size : Nat
  compression_type : CompressionType
deriving DecidableEq, Repr

/-- `archive/entry.rs::FileEntry`.  Names are modelled by their UTF-8 bytes;
`raw_bytes` is the borrowed payload slice; `update` is the materialized
replacement payload (`UpdateKind::to_bytes`, with the file-path variant
already read). -/
structure FileEntry where
  name : List Nat
  compression_info : Option CompressionInfo
  checksum : Int
  endian : Endian
  raw_bytes : List Nat
  update : Option (List Nat)
deriving DecidableEq, Repr

/-- `archive/entry.rs::Entry`; the `Dir` arm inlines `DirEntry`'s two fields
(`name`, `entries`). -/
inductive Entry where
  | file (f : FileEntry)
  | dir (name : List Nat) (entries : List Entry)

/-- `FileEntry::checksum_match`: compare the endian-aware wrapping sum of the
raw (on-disk) payload bytes with the stored checksum. -/
def FileEntry.checksum_match (f : FileEntry) : Bool :=
  bytes_sum_endian f.raw_bytes f.endian == f.checksum

/-- `archive/mod.rs::Archive::entries_checksum_match`: iterate the archive's
entry list, checking `checksum_match` on each `File` and returning `true` for
each `Dir` — exactly as the source does, without recursing into a
directory's children. -/
def entries_checksum_match (entries : List Entry) : Bool :=
  entries.all fun entry =>
    match entry with
    | .file f => f.checksum_match
    | .dir _ _ => true

mutual

/-- The spec's reading of `entries_checksum_match` for a single entry:
a file must satisfy `checksum_match`; a directory requires it of every file
nested anywhere below it. -/
def entryAllFilesChecksumMatch : Entry → Bool
  | .file f => f.checksum_match
  | .dir _ es => entriesAllFilesChecksumMatch es

/-- The spec's reading of `entries_checksum_match`: every file entry anywhere
in the entry tree satisfies `checksum_match`. -/
def entriesAllFilesChecksumMatch : List Entry → Bool
  | [] => true
  | e :: es => entryAllFilesChecksumMatch e && entriesAllFilesChecksumMatch es

end

/-! ## Variant A (Obscure 1) header -/

/-- The 12-byte Variant A magic `"HV PackFile\0"`. -/
def hvMagic : Bytes := [72, 86, 32, 80, 97, 99, 107, 70, 105, 108, 101, 0]

/-- `structures/obscure1/mod.rs::Header`. -/
structure O1Header where
  major_version : Nat
  minor_version : Nat
  root_count : Nat
  all_count : Nat
  file_count : Nat
  data_offset : Nat
deriving DecidableEq, Repr

/-- The `binrw` read of Variant A's `Header`: the magic `"HV PackFile\0"`,
`major_version`/`minor_version` (`u16`), then four `u32` counters with the
source's field-level asserts reproduced exactly — `root_count > 0`,
`all_count > 0`, `file_count > 0`, and, as written in the source, the assert
attached to the `data_offset` field checks `file_count > 0` again rather than
`data_offset > 0`. -/
def readO1Header (e : Endian) (bs : Bytes) : Option (O1Header × Bytes) :=
  match expectBytes hvMagic bs with
  | none => none
  | some bs =>
    pbind (readU16 e bs) fun major_version bs =>
    pbind (readU16 e bs) fun minor_version bs =>
    pbind (readU32 e bs) fun root_count bs =>
    pguard (root_count > 0) <|
    pbind (readU32 e bs) fun all_count bs =>
    pguard (all_count > 0) <|
    pbind (readU32 e bs) fun file_count bs =>
    pguard (file_count > 0) <|
    pbind (readU32 e bs) fun data_offset bs =>
    pguard (file_count > 0) <|
    some ({ major_version, minor_version, root_count, all_count, file_count,
            data_offset }, bs)

/-! ## UTF-8 validity (`std::str::from_utf8`) -/

/-- Whether a byte sequence is valid UTF-8, following the acceptance ranges
of Rust's `std::str::from_utf8` (no overlong encodings, no surrogates, no
code points beyond `U+10FFFF`). -/
def utf8Valid : List Nat → Bool
  | [] => true
  | b :: rest =>
      if b ≤ 0x7F then utf8Valid rest
      else if 0xC2 ≤ b && b ≤ 0xDF then
        match rest with
        | c1 :: r => (0x80 ≤ c1 && c1 ≤ 0xBF) && utf8Valid r
        | [] => false
      else if b == 0xE0 then
        match rest with
        | c1 :: c2 :: r =>
            (0xA0 ≤ c1 && c1 ≤ 0xBF) && (0x80 ≤ c2 && c2 ≤ 0xBF) && utf8Valid r
        | _ => false
      else if (0xE1 ≤ b && b ≤ 0xEC) || (0xEE ≤ b && b ≤ 0xEF) then
        match rest with
        | c1 :: c2 :: r =>
            (0x80 ≤ c1 && c1 ≤ 0xBF) && (0x80 ≤ c2 && c2 ≤ 0xBF) && utf8Valid r
        | _ => false
      else if b == 0xED then
        match rest with
        | c1 :: c2 :: r =>
            (0x80 ≤ c1 && c1 ≤ 0x9F) && (0x80 ≤ c2 && c2 ≤ 0xBF) && utf8Valid r
        | _ => false
      else if b == 0xF0 then
        match rest with
        | c1 :: c2 :: c3 :: r =>
            (0x90 ≤ c1 && c1 ≤ 0xBF) && (0x80 ≤ c2 && c2 ≤ 0xBF) &&
              (0x80 ≤ c3 && c3 ≤ 0xBF) && utf8Valid r
        | _ => false
      else if 0xF1 ≤ b && b ≤ 0xF3 then
        match rest with
        | c1 :: c2 :: c3 :: r =>
            (0x80 ≤ c1 && c1 ≤ 0xBF) && (0x80 ≤ c2 && c2 ≤ 0xBF) &&
              (0x80 ≤ c3 && c3 ≤ 0xBF) && utf8Valid r
        | _ => false
      else if b == 0xF4 then
        match rest with
        | c1 :: c2 :: c3 :: r =>
            (0x80 ≤ c1 && c1 ≤ 0x8F) && (0x80 ≤ c2 && c2 ≤ 0xBF) &&
              (0x80 ≤ c3 && c3 ≤ 0xBF) && utf8Valid r
        | _ => false
      else false

/-! ## Variant C (Final Exam) raw structures -/

/-- `structures/final_exam/mod.rs::FileEntry` (raw). -/
structure FEFile where
  checksum : Int
  uncompressed_size : Nat
  name_offset : Nat
  offset : Nat
  compressed_size : Nat
deriving DecidableEq, Repr

/-- `structures/final_exam/mod.rs::DirEntry` (raw; the two asserted-zero
fields are omitted — they are always 0 after parsing and are written back as
0). -/
structure FEDir where
  name_offset : Nat
  count : Nat
  index : Nat
deriving DecidableEq, Repr

/-- `structures/final_exam/mod.rs::EntryKind`; the `u32` tags are 0, 1, 4. -/
inductive FEKind where
  | file (f : FEFile)
  | fileCompressed (f : FEFile)
  | directory (d : FEDir)
deriving DecidableEq, Repr

/-- `structures/final_exam/mod.rs::Entry`. -/
structure FEEntry where
  name_crc32 : Nat
  kind : FEKind
deriving DecidableEq, Repr

/-- `structures/final_exam/mod.rs::Names`. -/
structure FENames where
  bytes : List Nat
deriving DecidableEq, Repr

/-- The `name_offset` of an entry, as extracted by the `match` at the top of
`Names::validate_name_offsets`. -/
def FEEntry.nameOffset (e : FEEntry) : Nat :=
  match e.kind with
  | .file f => f.name_offset
  | .fileCompressed f => f.name_offset
  | .directory d => d.name_offset

/-- `slice::split(|&b| b == 0).next()` on a byte slice: the first chunk — the
bytes strictly before the first NUL, or the whole slice when it contains no
NUL.  `split` always yields at least one (possibly empty) chunk, so the
source's `else return false` arm for `None` is unreachable. -/
def firstSplitAtNul (bs : List Nat) : List Nat := bs.takeWhile (fun b => b != 0)

/-- `Names::validate_name_offsets`, exactly as in the source: an entry fails
if its `name_offset` is strictly greater than the blob length, or if the
first NUL-separated chunk starting at the offset is not valid UTF-8. -/
def FENames.validate_name_offsets (names : FENames) (entries : List FEEntry) : Bool :=
  entries.all fun entry =>
    if entry.nameOffset > names.bytes.length then false
    else utf8Valid (firstSplitAtNul (names.bytes.drop entry.nameOffset))

/-! ## Variant A (Obscure 1) raw entries and Variant B (Obscure 2) raw TOC -/

/-- `structures/obscure1/mod.rs::FileEntry` (raw).  `is_compressed` is read
from a `u32` via `v > 0`. -/
structure O1File where
  is_compressed : Bool
  compressed_size : Nat
  uncompressed_size : Nat
  checksum : Int
  offset : Nat
  name : List Nat
deriving DecidableEq, Repr

/-- `structures/obscure1/mod.rs::Entry`/`EntryKind`/`DirEntry`, flattened:
each entry stores its on-disk `entry_size` field and is either a file or a
directory (whose asserted-zero `u32` is omitted and whose `count` is the
length of `entries`, recomputed on write as in the source). -/
inductive O1Entry where
  | file (entry_size : Nat) (f : O1File)
  | dir (entry_size : Nat) (name : List Nat) (entries : List O1Entry)

/-- `structures/obscure1/mod.rs::Crc32`. -/
structure O1Crc32 where
  header : Nat
  entries : Nat
deriving DecidableEq, Repr

/-- `structures/obscure1/mod.rs::HvpArchive`. -/
structure O1Archive where
  header : O1Header
  checksums : Option O1Crc32
  entries : List O1Entry

/-- `structures/obscure2/mod.rs::FileEntry` (raw; the asserted-zero `i16` is
omitted). -/
structure O2File where
  checksum : Int
  uncompressed_size : Nat
  offset : Nat
  compressed_size : Nat
deriving DecidableEq, Repr

/-- `structures/obscure2/mod.rs::DirEntry` (raw; the three asserted-zero
fields are omitted). -/
structure O2Dir where
  count : Nat
  index : Nat
deriving DecidableEq, Repr

/-- `structures/obscure2/mod.rs::EntryKind`; the `u16` tags are 0, 1, 4. -/
inductive O2Kind where
  | file (f : O2File)
  | fileCompressed (f : O2File)
  | directory (d : O2Dir)
deriving DecidableEq, Repr

/-- `structures/obscure2/mod.rs::Entry`. -/
structure O2Entry where
  name_crc32 : Nat
  kind : O2Kind
deriving DecidableEq, Repr

/-- `structures/obscure2/mod.rs::HvpArchive`: the `LittleEndian`/`BigEndian`
enum collapsed to an `endian` field plus the inner header fields
(`zero` omitted) and the flat entry array. -/
structure O2Archive where
  endian : Endian
  entries_count : Nat
  entries_crc32 : Nat
  entries : List O2Entry
deriving DecidableEq, Repr

/-! ## Provider validation (`provider.rs::validate_entries`) -/

/-- `provider.rs::RawArchive` (this build supports Obscure 1 and Obscure 2). -/
inductive RawArchive where
  | obscure1 (arch : O1Archive)
  | obscure2 (arch : O2Archive)

/-- `u32` wrapping addition: the release-mode semantics of
`e.offset + e.compressed_size` in `validate_entries`. -/
def uadd32 (a b : Nat) : Nat := (a + b) % 2 ^ 32

mutual

/-- The inner `check_entry` of `validate_entries` for Variant A: directories
recurse over their children; a file passes when `uncompressed_size == 0`
(entries with uncompressed size zero are ignored — "somehow entries with
uncompressed size zero have crazy compressed sizes") or when its wrapped
`offset + compressed_size` fits in the archive. -/
def o1CheckEntry (len : Nat) : O1Entry → Bool
  | .dir _ _ es => o1CheckEntries len es
  | .file _ f =>
      (f.uncompressed_size == 0) || decide (uadd32 f.offset f.compressed_size ≤ len)

/-- `iter().all(..)` over a Variant A entry list. -/
def o1CheckEntries (len : Nat) : List O1Entry → Bool
  | [] => true
  | e :: es => o1CheckEntry len e && o1CheckEntries len es

end

/-- `provider.rs::validate_entries`: Variant A checks every file entry in the
tree with the empty-file exemption; Variant B checks every `File` or
`FileCompressed` entry of the flat array unconditionally (no exemption) and
returns `true` for every other entry kind. -/
def validate_entries (raw : RawArchive) (len : Nat) : Bool :=
  match raw with
  | .obscure1 arch => o1CheckEntries len arch.entries
  | .obscure2 arch =>
      arch.entries.all fun e =>
        match e.kind with
        | .file f => decide (uadd32 f.offset f.compressed_size ≤ len)
        | .fileCompressed f => decide (uadd32 f.offset f.compressed_size ≤ len)
        | .directory _ => true

/-! ## The rebuild updaters

Each variant's `update_entries` walks the cloned raw TOC and the unified
entry tree in lockstep, writing payload bytes to the sink and patching the
raw entries in place.  The sink and cursor are threaded explicitly; external
compressors (zlib / LZO) are abstracted as a function parameter `compress`
(for Variant B the persistent LZO dictionary is part of that abstraction).
Panics (`assert`/`unreachable`) are modelled as `none`. -/

/-- `archive/entry.rs::FileEntry::is_compressed`. -/
def FileEntry.is_compressed (f : FileEntry) : Bool := f.compression_info.isSome

/-- The updater's mutable state: the payload cursor (`offset`, a `u32`) and
the bytes written to the sink so far. -/
structure UpdState where
  offset : Nat
  out : List Nat
deriving DecidableEq, Repr

/-- `archive/obscure1.rs::Updater::process_file`.  Entries with
`uncompressed_size == 0` are skipped untouched; otherwise the entry's
`offset` is patched to the cursor and the payload (original bytes, plaintext
update, or compressed update) is appended.  `as u32` casts are `% 2^32`;
Variant A always computes checksums with `Endian::Little`. -/
def o1ProcessFile (skip : Bool) (compress : List Nat → List Nat)
    (o : O1File) (u : FileEntry) (st : UpdState) : O1File × UpdState :=
  if o.uncompressed_size == 0 then (o, st)
  else
    let o := { o with offset := st.offset }
    match u.update with
    | none => (o, ⟨uadd32 st.offset u.raw_bytes.length, st.out ++ u.raw_bytes⟩)
    | some bytes =>
        if skip || !o.is_compressed then
          ({ o with compressed_size := bytes.length % 2 ^ 32,
                    uncompressed_size := bytes.length % 2 ^ 32,
                    is_compressed := false,
                    checksum := bytes_sum_endian bytes .little },
           ⟨uadd32 st.offset bytes.length, st.out ++ bytes⟩)
        else
          let cb := compress bytes
          ({ o with compressed_size := cb.length % 2 ^ 32,
                    uncompressed_size := bytes.length % 2 ^ 32,
                    checksum := bytes_sum_endian cb .little },
           ⟨uadd32 st.offset cb.length, st.out ++ cb⟩)

mutual

/-- One step of Variant A's lockstep walk: directories pair with directories
(recursing over the zipped children), files pair with files; any other pair
is the source's `unreachable!`. -/
def o1UpdEntry (skip : Bool) (compress : List Nat → List Nat) :
    O1Entry → Entry → UpdState → Option (O1Entry × UpdState)
  | .dir sz n oes, .dir _ ues, st =>
      (o1UpdList skip compress oes ues st).map fun p => (.dir sz n p.1, p.2)
  | .file sz f, .file u, st =>
      let p := o1ProcessFile skip compress f u st
      some (.file sz p.1, p.2)
  | _, _, _ => none

/-- `iter_mut().zip(..)` over children: iteration stops at the shorter list;
raw entries beyond the zipped length remain unprocessed but stay in place. -/
def o1UpdList (skip : Bool) (compress : List Nat → List Nat) :
    List O1Entry → List Entry → UpdState → Option (List O1Entry × UpdState)
  | oes, [], st => some (oes, st)
  | [], _, st => some ([], st)
  | oe :: oes, ue :: ues, st => do
      let (oe', st) ← o1UpdEntry skip compress oe ue st
      let (oes', st) ← o1UpdList skip compress oes ues st
      some (oe' :: oes', st)

end

/-- `archive/obscure1.rs::update_entries`: asserts the top-level entry counts
match, then walks the pairs.  Returns the patched archive and the payload
bytes written. -/
def o1UpdateEntries (writerOffset : Nat) (skip : Bool) (compress : List Nat → List Nat)
    (archive : O1Archive) (entries : List Entry) : Option (O1Archive × List Nat) :=
  if archive.entries.length ≠ entries.length then none
  else
    (o1UpdList skip compress archive.entries entries ⟨writerOffset, []⟩).map fun p =>
      ({ archive with entries := p.1 }, p.2.out)

/-- `archive/obscure2.rs::Updater::process_file`: asserts the original and
unified checksums agree, skips `uncompressed_size == 0` entries, patches
`offset`, and writes the original bytes or the update (plaintext when
`skip_compression` or the unified entry is uncompressed, compressed
otherwise).  Checksums use the one-argument little-endian `bytes_sum`. -/
def o2ProcessFile (skip : Bool) (compress : List Nat → List Nat)
    (o : O2File) (u : FileEntry) (st : UpdState) : Option (O2File × UpdState) :=
  if o.checksum ≠ u.checksum then none
  else if o.uncompressed_size == 0 then some (o, st)
  else
    let o := { o with offset := st.offset }
    match u.update with
    | none => some (o, ⟨uadd32 st.offset u.raw_bytes.length, st.out ++ u.raw_bytes⟩)
    | some bytes =>
        if skip || !u.is_compressed then
          some ({ o with compressed_size := bytes.length % 2 ^ 32,
                         uncompressed_size := bytes.length % 2 ^ 32,
                         checksum := bytes_sum bytes },
                ⟨uadd32 st.offset bytes.length, st.out ++ bytes⟩)
        else
          let cb := compress bytes
          some ({ o with compressed_size := cb.length % 2 ^ 32,
                         uncompressed_size := bytes.length % 2 ^ 32,
                         checksum := bytes_sum cb },
                ⟨uadd32 st.offset cb.length, st.out ++ cb⟩)

/-- Replace the file payload of an `O2Kind` while keeping its constructor:
mutating through `EntryKind::FileCompressed(o) | EntryKind::File(o)` patches
the inner struct but never changes the tag. -/
def O2Kind.withFile (k : O2Kind) (f : O2File) : O2Kind :=
  match k with
  | .file _ => .file f
  | .fileCompressed _ => .fileCompressed f
  | .directory d => .directory d

mutual

/-- `archive/obscure2.rs::Updater::process_entry` at index `idx` of the flat
entry array: a raw file entry (either tag) pairs with a unified file, a raw
directory pairs with a unified directory (recursing over its index range);
anything else — including an out-of-range index — is a panic (`none`).
`fuel` bounds the recursion (index ranges in a malformed TOC can loop). -/
def o2UpdEntry (skip : Bool) (compress : List Nat → List Nat) :
    Nat → Nat → Entry → List O2Entry → UpdState → Option (List O2Entry × UpdState)
  | 0, _, _, _, _ => none
  | fuel + 1, idx, u, entries, st =>
      (entries[idx]?).bind fun oe =>
        match oe.kind, u with
        | .file f, .file uf | .fileCompressed f, .file uf =>
            (o2ProcessFile skip compress f uf st).map fun p =>
              (entries.set idx { oe with kind := oe.kind.withFile p.1 }, p.2)
        | .directory d, .dir _ ues =>
            o2UpdRange skip compress fuel d.index d.count ues entries st
        | _, _ => none

/-- The `for o_entry_idx in range` loop of `process_dir`/`update_entries`:
visit `count` raw entries starting at `start`, in lockstep with the unified
list `ues` (which panics if it runs short; surplus unified entries are
ignored when the range ends).  The fuel ticks down on every step. -/
def o2UpdRange (skip : Bool) (compress : List Nat → List Nat) :
    Nat → Nat → Nat → List Entry → List O2Entry → UpdState →
      Option (List O2Entry × UpdState)
  | _, _, 0, _, entries, st => some (entries, st)
  | 0, _, _ + 1, _, _, _ => none
  | fuel + 1, start, count + 1, ues, entries, st =>
      match ues with
      | [] => none
      | ue :: ues' => do
          let (entries, st) ← o2UpdEntry skip compress fuel start ue entries st
          o2UpdRange skip compress fuel (start + 1) count ues' entries st

end

/-! ## CRC32 (crc32fast, IEEE) -/

/-- One bit-step of the reflected IEEE CRC32: shift right, conditionally
xoring the reversed polynomial `0xEDB88320`. -/
def crc32Round (crc : Nat) : Nat :=
  if crc % 2 = 1 then (crc / 2) ^^^ 0xEDB88320 else crc / 2

/-- Fold one byte into the CRC state (xor into the low byte, then eight bit
steps). -/
def crc32Byte (crc b : Nat) : Nat :=
  (List.range 8).foldl (fun c _ => crc32Round c) (crc ^^^ b)

/-- `crc32fast::hash` / `Hasher::new + update + finalize`: standard IEEE
CRC32 with initial state `0xFFFFFFFF` and final xor. -/
def crc32 (data : List Nat) : Nat :=
  (data.foldl crc32Byte 0xFFFFFFFF) ^^^ 0xFFFFFFFF

/-! ## Serializers (`binrw` write) -/

/-- Write a `u16` (value taken mod 2^16, as the underlying field is 16-bit). -/
def writeU16 (e : Endian) (n : Nat) : Bytes :=
  match e with
  | .little => [n % 256, n / 256 % 256]
  | .big => [n / 256 % 256, n % 256]

/-- Write a `u32`. -/
def writeU32 (e : Endian) (n : Nat) : Bytes :=
  match e with
  | .little => [n % 256, n / 256 % 256, n / 65536 % 256, n / 16777216 % 256]
  | .big => [n / 16777216 % 256, n / 65536 % 256, n / 256 % 256, n % 256]

/-- Write an `i32` (two's-complement encoding of its `u32` bit pattern). -/
def writeI32 (e : Endian) (z : Int) : Bytes :=
  writeU32 e (z % 2 ^ 32).toNat

/-- `structures/common.rs::write_string`: a `u32` byte length followed by the
raw bytes. -/
def writeString (e : Endian) (s : List Nat) : Bytes :=
  writeU32 e s.length ++ s

/-- Serialize Variant A's `Header` (the magic plus versions and counters). -/
def writeO1Header (e : Endian) (h : O1Header) : Bytes :=
  hvMagic ++ writeU16 e h.major_version ++ writeU16 e h.minor_version ++
    writeU32 e h.root_count ++ writeU32 e h.all_count ++ writeU32 e h.file_count ++
    writeU32 e h.data_offset

mutual

/-- Serialize one Variant A entry: the stored `entry_size`, the tag byte
(0 = dir, 1 = file), and the payload.  A directory writes its asserted-zero
`u32`, its recomputed child count, its name, and its children. -/
def writeO1Entry (e : Endian) : O1Entry → Bytes
  | .file sz f =>
      writeU32 e sz ++ [1] ++ writeU32 e (if f.is_compressed then 1 else 0) ++
        writeU32 e f.compressed_size ++ writeU32 e f.uncompressed_size ++
        writeI32 e f.checksum ++ writeU32 e f.offset ++ writeString e f.name
  | .dir sz n es =>
      writeU32 e sz ++ [0] ++ writeU32 e 0 ++ writeU32 e es.length ++
        writeString e n ++ writeO1Entries e es

/-- Serialize a Variant A entry list (`Vec<Entry>` writes each element in
order). -/
def writeO1Entries (e : Endian) : List O1Entry → Bytes
  | [] => []
  | ent :: es => writeO1Entry e ent ++ writeO1Entries e es

end

/-- Serialize a Variant A archive (`HvpArchive::write_options`): header, the
optional CRC block, then the root entries. -/
def writeO1Archive (e : Endian) (arch : O1Archive) : Bytes :=
  writeO1Header e arch.header ++
    (match arch.checksums with
     | none => []
     | some c => writeU32 e c.header ++ writeU32 e c.entries) ++
    writeO1Entries e arch.entries

/-- `structures/obscure1/mod.rs::HvpArchive::update_checksums`: when the CRC
block is present, recompute both CRCs from the serialized header and entries;
otherwise do nothing. -/
def O1Archive.update_checksums (arch : O1Archive) (e : Endian) : O1Archive :=
  match arch.checksums with
  | none => arch
  | some _ =>
      { arch with
          checksums := some { header := crc32 (writeO1Header e arch.header),
                              entries := crc32 (writeO1Entries e arch.entries) } }

/-- Serialize one Variant B entry: `name_crc32`, the `u16` kind tag
(0 / 1 / 4), and the payload (the asserted-zero fields written as zero). -/
def writeO2Entry (e : Endian) (ent : O2Entry) : Bytes :=
  writeU32 e ent.name_crc32 ++
    match ent.kind with
    | .file f =>
        writeU16 e 0 ++ writeU16 e 0 ++ writeI32 e f.checksum ++
          writeU32 e f.uncompressed_size ++ writeU32 e f.offset ++
          writeU32 e f.compressed_size
    | .fileCompressed f =>
        writeU16 e 1 ++ writeU16 e 0 ++ writeI32 e f.checksum ++
          writeU32 e f.uncompressed_size ++ writeU32 e f.offset ++
          writeU32 e f.compressed_size
    | .directory d =>
        writeU16 e 4 ++ writeU16 e 0 ++ writeU32 e 0 ++ writeU32 e 0 ++
          writeU32 e d.count ++ writeU32 e d.index

/-- Serialize a Variant B entry array. -/
def writeO2Entries (e : Endian) (es : List O2Entry) : Bytes :=
  es.flatMap (writeO2Entry e)

/-- `structures/obscure2/mod.rs::HvpArchive::update_checksums`: recompute
`entries_crc32` over the serialized entry array with the archive's endian. -/
def O2Archive.update_checksums (arch : O2Archive) : O2Archive :=
  { arch with entries_crc32 := crc32 (writeO2Entries arch.endian arch.entries) }

/-- Serialize a Variant B archive: the endian-tagged magic, the header
(asserted-zero `u32`, `entries_count`, the stored `entries_crc32`), and the
entry array. -/
def writeO2Archive (arch : O2Archive) : Bytes :=
  (match arch.endian with
   | .little => [0, 0, 4, 0]
   | .big => [0, 4, 0, 0]) ++
    writeU32 arch.endian 0 ++ writeU32 arch.endian arch.entries_count ++
    writeU32 arch.endian arch.entries_crc32 ++ writeO2Entries arch.endian arch.entries

/-- `structures/final_exam/mod.rs::HvpArchive` collapsed like Variant B's:
the endian (from the magic), the header counters, the names blob, and the
flat entry array. -/
structure FEArchive where
  endian : Endian
  entries_count : Nat
  entries_crc32 : Nat
  names : FENames
  entries : List FEEntry
deriving DecidableEq, Repr

/-- Serialize one Variant C entry: `name_crc32`, the `u32` kind tag
(0 / 1 / 4), and the payload. -/
def writeFEEntry (e : Endian) (ent : FEEntry) : Bytes :=
  writeU32 e ent.name_crc32 ++
    match ent.kind with
    | .file f =>
        writeU32 e 0 ++ writeI32 e f.checksum ++ writeU32 e f.uncompressed_size ++
          writeU32 e f.name_offset ++ writeU32 e f.offset ++ writeU32 e f.compressed_size
    | .fileCompressed f =>
        writeU32 e 1 ++ writeI32 e f.checksum ++ writeU32 e f.uncompressed_size ++
          writeU32 e f.name_offset ++ writeU32 e f.offset ++ writeU32 e f.compressed_size
    | .directory d =>
        writeU32 e 4 ++ writeU32 e 0 ++ writeU32 e 0 ++ writeU32 e d.name_offset ++
          writeU32 e d.count ++ writeU32 e d.index

/-- Serialize a Variant C entry array. -/
def writeFEEntries (e : Endian) (es : List FEEntry) : Bytes :=
  es.flatMap (writeFEEntry e)

/-- Serialize a Variant C archive.  Per the `#[bw(try_map = ..)]` on
`entries_crc32`, the stored CRC is ignored on write and recomputed from the
serialized entry array with the archive's endian; then come the names blob
(`u32` length plus bytes) and the entries. -/
def writeFEArchive (arch : FEArchive) : Bytes :=
  (match arch.endian with
   | .little => [0, 0, 5, 0]
   | .big => [0, 5, 0, 0]) ++
    writeU32 arch.endian 0 ++ writeU32 arch.endian arch.entries_count ++
    writeU32 arch.endian (crc32 (writeFEEntries arch.endian arch.entries)) ++
    writeU32 arch.endian arch.names.bytes.length ++ arch.names.bytes ++
    writeFEEntries arch.endian arch.entries

/-! ## Variant C updater (`archive/final_exam.rs`) -/

/-- `Updater::caculate_and_apply_padding`: if the cursor is not 4-byte
aligned, write `4 - cursor % 4` zero bytes. -/
def fePad (st : UpdState) : UpdState :=
  if st.offset % 4 ≠ 0 then
    ⟨uadd32 st.offset (4 - st.offset % 4), st.out ++ List.replicate (4 - st.offset % 4) 0⟩
  else st

/-- `archive/final_exam.rs::Updater::process_file`: like Variant B's but the
checksum of an updated payload uses the archive's endian. -/
def feProcessFile (skip : Bool) (compress : List Nat → List Nat) (endian : Endian)
    (o : FEFile) (u : FileEntry) (st : UpdState) : Option (FEFile × UpdState) :=
  if o.checksum ≠ u.checksum then none
  else if o.uncompressed_size == 0 then some (o, st)
  else
    let o := { o with offset := st.offset }
    match u.update with
    | none => some (o, ⟨uadd32 st.offset u.raw_bytes.length, st.out ++ u.raw_bytes⟩)
    | some bytes =>
        if skip || !u.is_compressed then
          some ({ o with compressed_size := bytes.length % 2 ^ 32,
                         uncompressed_size := bytes.length % 2 ^ 32,
                         checksum := bytes_sum_endian bytes endian },
                ⟨uadd32 st.offset bytes.length, st.out ++ bytes⟩)
        else
          let cb := compress bytes
          some ({ o with compressed_size := cb.length % 2 ^ 32,
                         uncompressed_size := bytes.length % 2 ^ 32,
                         checksum := bytes_sum_endian cb endian },
                ⟨uadd32 st.offset cb.length, st.out ++ cb⟩)

/-- Replace the file payload of an `FEKind`, keeping the tag — as with
Variant B, the `FileCompressed | File` borrow never rewrites the
discriminant. -/
def FEKind.withFile (k : FEKind) (f : FEFile) : FEKind :=
  match k with
  | .file _ => .file f
  | .fileCompressed _ => .fileCompressed f
  | .directory d => .directory d

mutual

/-- `archive/final_exam.rs::Updater::process_entry`: files are processed and
then padded to 4-byte alignment; directories recurse over their index
range. -/
def feUpdEntry (skip : Bool) (compress : List Nat → List Nat) (endian : Endian) :
    Nat → Nat → Entry → List FEEntry → UpdState → Option (List FEEntry × UpdState)
  | 0, _, _, _, _ => none
  | fuel + 1, idx, u, entries, st =>
      (entries[idx]?).bind fun oe =>
        match oe.kind, u with
        | .file f, .file uf | .fileCompressed f, .file uf =>
            (feProcessFile skip compress endian f uf st).map fun p =>
              (entries.set idx { oe with kind := oe.kind.withFile p.1 }, fePad p.2)
        | .directory d, .dir _ ues =>
            feUpdRange skip compress endian fuel d.index d.count ues entries st
        | _, _ => none

/-- The range loop of Variant C's `process_dir`/`update_entries`; the fuel
ticks down on every step. -/
def feUpdRange (skip : Bool) (compress : List Nat → List Nat) (endian : Endian) :
    Nat → Nat → Nat → List Entry → List FEEntry → UpdState →
      Option (List FEEntry × UpdState)
  | _, _, 0, _, entries, st => some (entries, st)
  | 0, _, _ + 1, _, _, _ => none
  | fuel + 1, start, count + 1, ues, entries, st =>
      match ues with
      | [] => none
      | ue :: ues' => do
          let (entries, st) ← feUpdEntry skip compress endian fuel start ue entries st
          feUpdRange skip compress endian fuel (start + 1) count ues' entries st

end

/-- `archive/obscure2.rs::update_entries`: check the synthetic root entry
(`name_crc32 = 0`, a directory with `index = 1`), walk raw indices
`1 .. 1 + root_count` in lockstep with the unified entries, then recompute
the entries CRC (`update_checksums`).  Returns the patched archive and the
payload bytes written. -/
def o2UpdateEntries (writerOffset : Nat) (skip : Bool) (compress : List Nat → List Nat)
    (archive : O2Archive) (entries : List Entry) : Option (O2Archive × List Nat) :=
  match archive.entries[0]? with
  | none => none
  | some root =>
      match root.kind with
      | .directory d =>
          if root.name_crc32 = 0 ∧ d.index = 1 then
            (o2UpdRange skip compress (2 * archive.entries.length + 2) 1 d.count
                entries archive.entries ⟨writerOffset, []⟩).map fun p =>
              (O2Archive.update_checksums { archive with entries := p.1 }, p.2.out)
          else none
      | _ => none

/-- `archive/final_exam.rs::update_entries`: check the synthetic root entry,
apply the initial alignment padding, then walk raw indices
`1 .. 1 + root_count` in lockstep with the unified entries.  No CRC update
here — Variant C recomputes it during serialization. -/
def feUpdateEntries (writerOffset : Nat) (skip : Bool) (compress : List Nat → List Nat)
    (archive : FEArchive) (entries : List Entry) : Option (FEArchive × List Nat) :=
  match archive.entries[0]? with
  | none => none
  | some root =>
      match root.kind with
      | .directory d =>
          if root.name_crc32 = 0 ∧ d.index = 1 then
            (feUpdRange skip compress archive.endian (2 * archive.entries.length + 2) 1
                d.count entries archive.entries (fePad ⟨writerOffset, []⟩)).map fun p =>
              ({ archive with entries := p.1 }, p.2.out)
          else none
      | _ => none

/-! ## Parsers (`binrw` read) -/

/-- The `binrw` read of a Variant B raw file entry: the asserted-zero `i16`,
then checksum, uncompressed size, offset and compressed size. -/
def readO2File (e : Endian) (bs : Bytes) : Option (O2File × Bytes) :=
  pbind (readU16 e bs) fun z bs =>
  pguard (z = 0) <|
  pbind (readI32 e bs) fun ck bs =>
  pbind (readU32 e bs) fun usize bs =>
  pbind (readU32 e bs) fun off bs =>
  pbind (readU32 e bs) fun csize bs =>
  some ({ checksum := ck, uncompressed_size := usize, offset := off,
          compressed_size := csize }, bs)

/-- The `binrw` read of a Variant B raw directory entry: three asserted
zeros, a positive `count`, and `index`. -/
def readO2Dir (e : Endian) (bs : Bytes) : Option (O2Dir × Bytes) :=
  pbind (readU16 e bs) fun z1 bs =>
  pguard (z1 = 0) <|
  pbind (readU32 e bs) fun z2 bs =>
  pguard (z2 = 0) <|
  pbind (readU32 e bs) fun z3 bs =>
  pguard (z3 = 0) <|
  pbind (readU32 e bs) fun count bs =>
  pguard (count > 0) <|
  pbind (readU32 e bs) fun index bs =>
  some ({ count := count, index := index }, bs)

/-- The `binrw` read of a Variant B entry: `name_crc32`, the `u16` kind tag
(0 = `File`, 1 = `FileCompressed`, 4 = `Directory`; anything else is a bad
magic), and the tagged payload. -/
def readO2Entry (e : Endian) (bs : Bytes) : Option (O2Entry × Bytes) :=
  pbind (readU32 e bs) fun crc bs =>
  pbind (readU16 e bs) fun tag bs =>
  match tag with
  | 0 => pbind (readO2File e bs) fun f bs => some (⟨crc, .file f⟩, bs)
  | 1 => pbind (readO2File e bs) fun f bs => some (⟨crc, .fileCompressed f⟩, bs)
  | 4 => pbind (readO2Dir e bs) fun d bs => some (⟨crc, .directory d⟩, bs)
  | _ => none

/-- The `binrw` read of exactly `n` Variant B entries. -/
def readO2EntriesN (e : Endian) : Nat → Bytes → Option (List O2Entry × Bytes)
  | 0, bs => some ([], bs)
  | n + 1, bs =>
      pbind (readO2Entry e bs) fun ent bs =>
      pbind (readO2EntriesN e n bs) fun es bs =>
      some (ent :: es, bs)

/-- `obscure2::have_root_entry`: the first entry must be a directory with
`name_crc32 = 0` and `index = 1`.  (The source indexes `entries[0]`, which
panics on an empty array; `entries_count > 0` makes that unreachable, and the
model returns `false` there.) -/
def o2HasRootEntry (entries : List O2Entry) : Bool :=
  match entries with
  | { name_crc32 := 0, kind := .directory d } :: _ => d.index == 1
  | _ => false

/-- The `binrw` read of a Variant B archive: the endian-tagged magic, the
asserted-zero `u32`, `entries_count > 0`, `entries_crc32 > 0`,
`entries_count` entries, and the root-entry assert. -/
def readO2Archive (bs : Bytes) : Option (O2Archive × Bytes) :=
  match (if bs.take 4 = [0, 0, 4, 0] then some Endian.little
         else if bs.take 4 = [0, 4, 0, 0] then some Endian.big else none) with
  | none => none
  | some e =>
    let bs := bs.drop 4
    pbind (readU32 e bs) fun z bs =>
    pguard (z = 0) <|
    pbind (readU32 e bs) fun cnt bs =>
    pguard (cnt > 0) <|
    pbind (readU32 e bs) fun crc bs =>
    pguard (crc > 0) <|
    pbind (readO2EntriesN e cnt bs) fun entries bs =>
    pguard (o2HasRootEntry entries = true) <|
    some ({ endian := e, entries_count := cnt, entries_crc32 := crc,
            entries := entries }, bs)

/-- The `binrw` read of a Variant C raw file entry: checksum, uncompressed
size, name offset, offset, compressed size. -/
def readFEFile (e : Endian) (bs : Bytes) : Option (FEFile × Bytes) :=
  pbind (readI32 e bs) fun ck bs =>
  pbind (readU32 e bs) fun usize bs =>
  pbind (readU32 e bs) fun noff bs =>
  pbind (readU32 e bs) fun off bs =>
  pbind (readU32 e bs) fun csize bs =>
  some ({ checksum := ck, uncompressed_size := usize, name_offset := noff, offset := off,
          compressed_size := csize }, bs)

/-- The `binrw` read of a Variant C raw directory entry: two asserted zeros,
the name offset, a positive `count`, and `index`. -/
def readFEDir (e : Endian) (bs : Bytes) : Option (FEDir × Bytes) :=
  pbind (readU32 e bs) fun z1 bs =>
  pguard (z1 = 0) <|
  pbind (readU32 e bs) fun z2 bs =>
  pguard (z2 = 0) <|
  pbind (readU32 e bs) fun noff bs =>
  pbind (readU32 e bs) fun count bs =>
  pguard (count > 0) <|
  pbind (readU32 e bs) fun index bs =>
  some ({ name_offset := noff, count := count, index := index }, bs)

/-- The `binrw` read of a Variant C entry: `name_crc32`, the `u32` kind tag,
and the tagged payload. -/
def readFEEntry (e : Endian) (bs : Bytes) : Option (FEEntry × Bytes) :=
  pbind (readU32 e bs) fun crc bs =>
  pbind (readU32 e bs) fun tag bs =>
  match tag with
  | 0 => pbind (readFEFile e bs) fun f bs => some (⟨crc, .file f⟩, bs)
  | 1 => pbind (readFEFile e bs) fun f bs => some (⟨crc, .fileCompressed f⟩, bs)
  | 4 => pbind (readFEDir e bs) fun d bs => some (⟨crc, .directory d⟩, bs)
  | _ => none

/-- The `binrw` read of exactly `n` Variant C entries. -/
def readFEEntriesN (e : Endian) : Nat → Bytes → Option (List FEEntry × Bytes)
  | 0, bs => some ([], bs)
  | n + 1, bs =>
      pbind (readFEEntry e bs) fun ent bs =>
      pbind (readFEEntriesN e n bs) fun es bs =>
      some (ent :: es, bs)

/-- `final_exam::have_root_entry` (same shape as Variant B's). -/
def feHasRootEntry (entries : List FEEntry) : Bool :=
  match entries with
  | { name_crc32 := 0, kind := .directory d } :: _ => d.index == 1
  | _ => false

/-- The `binrw` read of a Variant C archive: the endian-tagged magic, the
header (asserted zero, `entries_count > 0`, `entries_crc32 > 0`), the names
blob, then the entries read through `read_entries_with_validation` — the
CRC32 of the bytes consumed by the entry array must equal the stored
`entries_crc32` — followed by the root-entry and name-offset asserts. -/
def readFEArchive (bs : Bytes) : Option (FEArchive × Bytes) :=
  match (if bs.take 4 = [0, 0, 5, 0] then some Endian.little
         else if bs.take 4 = [0, 5, 0, 0] then some Endian.big else none) with
  | none => none
  | some e =>
    let bs := bs.drop 4
    pbind (readU32 e bs) fun z bs =>
    pguard (z = 0) <|
    pbind (readU32 e bs) fun cnt bs =>
    pguard (cnt > 0) <|
    pbind (readU32 e bs) fun crc bs =>
    pguard (crc > 0) <|
    pbind (readU32 e bs) fun nlen bs =>
    if bs.length < nlen then none
    else
      let names : FENames := ⟨bs.take nlen⟩
      let bs := bs.drop nlen
      pbind (readFEEntriesN e cnt bs) fun entries bs' =>
      pguard (crc32 (bs.take (bs.length - bs'.length)) = crc) <|
      pguard (feHasRootEntry entries = true) <|
      pguard (names.validate_name_offsets entries = true) <|
      some ({ endian := e, entries_count := cnt, entries_crc32 := crc, names := names,
              entries := entries }, bs')

/-- `structures/common.rs::read_string` (Variant A names): a `u32` length,
that many bytes, UTF-8 validation. -/
def readString (e : Endian) (bs : Bytes) : Option (List Nat × Bytes) :=
  pbind (readU32 e bs) fun len bs =>
  if bs.length < len then none
  else
    let s := bs.take len
    if utf8Valid s then some (s, bs.drop len) else none

/-- The `binrw` read of a Variant A raw file entry (tag already consumed):
`is_compressed` is read from a `u32` via `v > 0`, then sizes, checksum,
offset, and the length-prefixed name. -/
def readO1File (e : Endian) (bs : Bytes) : Option (O1File × Bytes) :=
  pbind (readU32 e bs) fun ic bs =>
  pbind (readU32 e bs) fun csize bs =>
  pbind (readU32 e bs) fun usize bs =>
  pbind (readI32 e bs) fun ck bs =>
  pbind (readU32 e bs) fun off bs =>
  pbind (readString e bs) fun name bs =>
  some ({ is_compressed := decide (0 < ic), compressed_size := csize,
          uncompressed_size := usize, checksum := ck, offset := off, name := name }, bs)

mutual

/-- The `binrw` read of one Variant A entry: `entry_size > 0`, the tag byte
(0 = dir, 1 = file), then the payload; a directory reads its asserted-zero
`u32`, its child count, its name, and `count` child entries.  The fuel ticks
down on every step (the recursion is bounded by the remaining input). -/
def readO1Entry (e : Endian) : Nat → Bytes → Option (O1Entry × Bytes)
  | 0, _ => none
  | fuel + 1, bs =>
      pbind (readU32 e bs) fun sz bs =>
      pguard (sz > 0) <|
      pbind (readU8 bs) fun tag bs =>
      match tag with
      | 0 =>
          pbind (readU32 e bs) fun z bs =>
          pguard (z = 0) <|
          pbind (readU32 e bs) fun count bs =>
          pbind (readString e bs) fun name bs =>
          pbind (readO1EntryListN e fuel count bs) fun es bs =>
          some (.dir sz name es, bs)
      | 1 => pbind (readO1File e bs) fun f bs => some (.file sz f, bs)
      | _ => none

/-- The `binrw` read of exactly `count` Variant A entries, fuelled. -/
def readO1EntryListN (e : Endian) : Nat → Nat → Bytes → Option (List O1Entry × Bytes)
  | _, 0, bs => some ([], bs)
  | 0, _ + 1, _ => none
  | fuel + 1, count + 1, bs =>
      pbind (readO1Entry e fuel bs) fun ent bs =>
      pbind (readO1EntryListN e fuel count bs) fun es bs =>
      some (ent :: es, bs)

end

/-- The `binrw` read of a Variant A archive: the header, the optional CRC
block (present exactly when `minor_version == 1`), and `root_count` root
entries. -/
def readO1Archive (e : Endian) (bs : Bytes) : Option (O1Archive × Bytes) :=
  pbind (readO1Header e bs) fun header bs =>
  pbind
    (if header.minor_version = 1 then
      pbind (readU32 e bs) fun h bs =>
      pbind (readU32 e bs) fun c bs =>
      some ((some ⟨h, c⟩ : Option O1Crc32), bs)
    else some ((none : Option O1Crc32), bs)) fun checksums bs =>
  pbind (readO1EntryListN e (bs.length + 1) header.root_count bs) fun entries bs =>
  some ({ header := header, checksums := checksums, entries := entries }, bs)

/-! ## Unified-model construction (`map_entries` of each variant) -/

/-- `ArchiveProvider::get_bytes`: a slice of the memory map at
`[offset, offset + size)`.  (A range past the end of the map would panic in
the source; validation is meant to exclude it, and the model truncates.) -/
def getBytes (file : Bytes) (off size : Nat) : Bytes := (file.drop off).take size

/-- The decimal digits of `n` as ASCII bytes, for the `format!` fallbacks. -/
def natDecimalBytes (n : Nat) : List Nat := (Nat.toDigits 10 n).map Char.toNat

/-- `format!("unk_file_{hash}.dat")` as UTF-8 bytes. -/
def unkFileName (crc : Nat) : List Nat :=
  [117, 110, 107, 95, 102, 105, 108, 101, 95] ++ natDecimalBytes crc ++ [46, 100, 97, 116]

/-- `format!("unk_folder_{hash}")` as UTF-8 bytes. -/
def unkFolderName (crc : Nat) : List Nat :=
  [117, 110, 107, 95, 102, 111, 108, 100, 101, 114, 95] ++ natDecimalBytes crc

mutual

/-- `archive/obscure1.rs::Process::process_entry`/`process_file`/`process_dir`
(metadata counting elided — no claim depends on it): a raw file becomes a
unified `FileEntry` (empty files get the empty slice), a raw directory maps
its children.  Fuelled like the other tree walks. -/
def o1MapEntry (file : Bytes) : Nat → O1Entry → Option Entry
  | 0, _ => none
  | _ + 1, .file _ f =>
      let ci : Option CompressionInfo :=
        if f.is_compressed then some ⟨f.uncompressed_size, .zlib⟩ else none
      let rb : List Nat :=
        if f.uncompressed_size = 0 then [] else getBytes file f.offset f.compressed_size
      some (.file { name := f.name, compression_info := ci, checksum := f.checksum,
                    endian := .little, raw_bytes := rb, update := none })
  | fuel + 1, .dir _ n es => (o1MapList file fuel es).map (.dir n)

/-- Map a list of Variant A raw entries. -/
def o1MapList (file : Bytes) : Nat → List O1Entry → Option (List Entry)
  | _, [] => some []
  | 0, _ :: _ => none
  | fuel + 1, oe :: oes => do
      let ue ← o1MapEntry file fuel oe
      let ues ← o1MapList file fuel oes
      some (ue :: ues)

end

/-- `archive/obscure2.rs::Process::process_file` producing the unified file
entry.  The name map is `Obscure2NameMap::get_name` with the
`unk_file_<hash>.dat` fallback.  The `endian` field of the unified entry is
modelled from the spec (the entry's endian is the archive's byte order); the
mapper in `src/`'s `archive/obscure2.rs` predates that field. -/
def o2MapFileEntry (nameMap : Nat → Option (List Nat)) (file : Bytes) (endian : Endian)
    (crc : Nat) (f : O2File) (isCompressed : Bool) : FileEntry :=
  { name := (nameMap crc).getD (unkFileName crc),
    compression_info := if isCompressed then some ⟨f.uncompressed_size, .lzo⟩ else none,
    checksum := f.checksum, endian := endian,
    raw_bytes := getBytes file f.offset f.compressed_size,
    update := none }

mutual

/-- `archive/obscure2.rs::Process::process_entry`: files map directly;
a directory maps the entries of its `[index, index + count)` range. -/
def o2MapEntry (nameMap : Nat → Option (List Nat)) (file : Bytes) (endian : Endian)
    (entries : List O2Entry) : Nat → O2Entry → Option Entry
  | 0, _ => none
  | fuel + 1, e =>
      match e.kind with
      | .file f => some (.file (o2MapFileEntry nameMap file endian e.name_crc32 f false))
      | .fileCompressed f =>
          some (.file (o2MapFileEntry nameMap file endian e.name_crc32 f true))
      | .directory d =>
          (o2MapRange nameMap file endian entries fuel d.index d.count).map
            (.dir ((nameMap e.name_crc32).getD (unkFolderName e.name_crc32)))

/-- The range walk of `process_dir` (an out-of-range index is the source's
slice panic). -/
def o2MapRange (nameMap : Nat → Option (List Nat)) (file : Bytes) (endian : Endian)
    (entries : List O2Entry) : Nat → Nat → Nat → Option (List Entry)
  | _, _, 0 => some []
  | 0, _, _ + 1 => none
  | fuel + 1, start, count + 1 => do
      let oe ← entries[start]?
      let ue ← o2MapEntry nameMap file endian entries fuel oe
      let ues ← o2MapRange nameMap file endian entries fuel (start + 1) count
      some (ue :: ues)

end

/-- `archive/obscure2.rs::map_entries`: drop the synthetic root directory and
map its children. -/
def o2MapEntries (nameMap : Nat → Option (List Nat)) (file : Bytes) (arch : O2Archive) :
    Option (List Entry) :=
  match arch.entries[0]? with
  | none => none
  | some root =>
      match root.kind with
      | .directory d =>
          if root.name_crc32 = 0 ∧ d.index = 1 then
            o2MapRange nameMap file arch.endian arch.entries
              (2 * arch.entries.length + 2) 1 d.count
          else none
      | _ => none

/-- `Names::get_name_by_offset`, total: the bytes from the offset up to the
first NUL (validation has already checked the offset and UTF-8). -/
def feName (names : FENames) (offset : Nat) : List Nat :=
  firstSplitAtNul (names.bytes.drop offset)

/-- `archive/final_exam.rs::Process::process_file` producing the unified file
entry (names from the embedded blob, endian from the archive). -/
def feMapFileEntry (names : FENames) (file : Bytes) (endian : Endian)
    (f : FEFile) (isCompressed : Bool) : FileEntry :=
  { name := feName names f.name_offset,
    compression_info := if isCompressed then some ⟨f.uncompressed_size, .lzo⟩ else none,
    checksum := f.checksum, endian := endian,
    raw_bytes := getBytes file f.offset f.compressed_size,
    update := none }

mutual

/-- `archive/final_exam.rs::Process::process_entry`. -/
def feMapEntry (names : FENames) (file : Bytes) (endian : Endian)
    (entries : List FEEntry) : Nat → FEEntry → Option Entry
  | 0, _ => none
  | fuel + 1, e =>
      match e.kind with
      | .file f => some (.file (feMapFileEntry names file endian f false))
      | .fileCompressed f => some (.file (feMapFileEntry names file endian f true))
      | .directory d =>
          (feMapRange names file endian entries fuel d.index d.count).map
            (.dir (feName names d.name_offset))

/-- The range walk of Variant C's `process_dir`. -/
def feMapRange (names : FENames) (file : Bytes) (endian : Endian)
    (entries : List FEEntry) : Nat → Nat → Nat → Option (List Entry)
  | _, _, 0 => some []
  | 0, _, _ + 1 => none
  | fuel + 1, start, count + 1 => do
      let oe ← entries[start]?
      let ue ← feMapEntry names file endian entries fuel oe
      let ues ← feMapRange names file endian entries fuel (start + 1) count
      some (ue :: ues)

end

/-- `archive/final_exam.rs::map_entries`. -/
def feMapEntries (file : Bytes) (arch : FEArchive) : Option (List Entry) :=
  match arch.entries[0]? with
  | none => none
  | some root =>
      match root.kind with
      | .directory d =>
          if root.name_crc32 = 0 ∧ d.index = 1 then
            feMapRange arch.names file arch.endian arch.entries
              (2 * arch.entries.length + 2) 1 d.count
          else none
      | _ => none

/-! ## Load-and-rebuild pipelines

`ArchiveProvider::new` (parse, record `entries_offset`, validate) followed by
`Archive::new` (map the entries, no updates attached by default) and
`Archive::rebuild` (reserve `entries_offset` bytes, stream payloads, seek
back and serialize the patched TOC).  The sink is a fresh in-memory cursor:
the reserved prefix is zero-filled and later overwritten by the TOC. -/

/-- `n` zero bytes (the reserved TOC region of a fresh sink). -/
def zeros (n : Nat) : Bytes := List.replicate n 0

/-- Seek to the start and write `patch` over the buffer (extending it if
needed) — the TOC rewrite at the end of `rebuild`. -/
def overwriteAtStart (patch buffer : Bytes) : Bytes := patch ++ buffer.drop patch.length

/-- Variant A: load through the provider (`read_be`, `entries_offset`,
validation), build the unified model, rebuild with no updates pending. -/
def o1LoadRebuild (skip : Bool) (compress : List Nat → List Nat) (bs : Bytes) :
    Option Bytes :=
  match readO1Archive .big bs with
  | none => none
  | some (arch, rest) =>
      if validate_entries (.obscure1 arch) bs.length then
        match o1MapList bs (bs.length + 1) arch.entries with
        | none => none
        | some entries =>
            match o1UpdateEntries (bs.length - rest.length) skip compress arch entries with
            | none => none
            | some (arch', payload) =>
                some (overwriteAtStart (writeO1Archive .big arch')
                  (zeros (bs.length - rest.length) ++ payload))
      else none

/-- Variant B: load, validate, map, rebuild. -/
def o2LoadRebuild (skip : Bool) (compress : List Nat → List Nat)
    (nameMap : Nat → Option (List Nat)) (bs : Bytes) : Option Bytes :=
  match readO2Archive bs with
  | none => none
  | some (arch, rest) =>
      if validate_entries (.obscure2 arch) bs.length then
        match o2MapEntries nameMap bs arch with
        | none => none
        | some entries =>
            match o2UpdateEntries (bs.length - rest.length) skip compress arch entries with
            | none => none
            | some (arch', payload) =>
                some (overwriteAtStart (writeO2Archive arch')
                  (zeros (bs.length - rest.length) ++ payload))
      else none

/-- Modelled from the spec: the provider's Variant C dispatch (the
`FinalExam` arms of `Game`, `RawArchive` and `validate_entries`) is not under
`src/` — only its tests and the codec/updater are.  Per the spec's validation
rule, every file entry with `uncompressed_size > 0` must satisfy
`offset + compressed_size ≤ file_length`. -/
def validateEntriesFE (arch : FEArchive) (len : Nat) : Bool :=
  arch.entries.all fun e =>
    match e.kind with
    | .file f =>
        (f.uncompressed_size == 0) || decide (f.offset + f.compressed_size ≤ len)
    | .fileCompressed f =>
        (f.uncompressed_size == 0) || decide (f.offset + f.compressed_size ≤ len)
    | .directory _ => true

/-- Variant C: load (spec-modelled provider dispatch), validate, map,
rebuild. -/
def feLoadRebuild (skip : Bool) (compress : List Nat → List Nat) (bs : Bytes) :
    Option Bytes :=
  match readFEArchive bs with
  | none => none
  | some (arch, rest) =>
      if validateEntriesFE arch bs.length then
        match feMapEntries bs arch with
        | none => none
        | some entries =>
            match feUpdateEntries (bs.length - rest.length) skip compress arch entries with
            | none => none
            | some (arch', payload) =>
                some (overwriteAtStart (writeFEArchive arch')
                  (zeros (bs.length - rest.length) ++ payload))
      else none

/-! ## Claim C2 -/

/-- C2: the per-file wrapping checksum equals the spec's reference definition
`specWrappingSum` — for every byte sequence the source `bytes_sum` computes
the two's-complement wrapping sum of the little-endian 4-byte signed words
with trailing bytes added unsigned, the endian-aware form consumes words in
the archive's byte order, the empty input yields 0, and the spec's three
concrete examples hold. -/
theorem claim_C2_wrapping_checksum :
    (∀ data : List Nat, bytes_sum data = specWrappingSum .little data) ∧
    (∀ (data : List Nat) (e : Endian), bytes_sum_endian data e = specWrappingSum e data) ∧
    bytes_sum [] = 0 ∧
    bytes_sum [0x01, 0x02, 0x03, 0x04] = 0x04030201 ∧
    bytes_sum [0x01, 0x02, 0x03] = 6 := by
  refine ⟨fun data => ?_, fun data e => bytes_sum_endian_eq_spec data e, by decide, by decide,
    by decide⟩
  rw [bytes_sum_eq_endian_little, bytes_sum_endian_eq_spec]

/-! ## Parser–serializer inversion

A successful parse of a byte stream whose elements are genuine bytes
(`< 256`) pins the consumed prefix down to the serialization of the parsed
value.  These lemmas drive the round-trip theorem for claim C1. -/

/-- All elements of the stream are bytes. -/
def bytesLt (bs : Bytes) : Prop := ∀ b ∈ bs, b < 256

theorem bytesLt_of_append {l1 l2 : Bytes} (h : bytesLt (l1 ++ l2)) : bytesLt l2 :=
  fun b hb => h b (List.mem_append.mpr (Or.inr hb))

theorem readU8_inv {bs : Bytes} {v : Nat} {rest : Bytes}
    (h : readU8 bs = some (v, rest)) : bs = v :: rest := by
  cases bs with
  | nil => simp [readU8] at h
  | cons b r =>
      simp only [readU8, Option.some.injEq] at h
      have h1 := congrArg Prod.fst h
      have h2 := congrArg Prod.snd h
      dsimp at h1 h2
      rw [h1, h2]

theorem readU16_inv {e : Endian} {bs : Bytes} {v : Nat} {rest : Bytes}
    (h : readU16 e bs = some (v, rest)) (hb : bytesLt bs) :
    bs = writeU16 e v ++ rest ∧ v < 2 ^ 16 := by
  rw [readU16] at h
  obtain ⟨b0, bs1, h1, h⟩ := pbind_eq_some.mp h
  obtain ⟨b1, bs2, h2, h⟩ := pbind_eq_some.mp h
  have e1 := readU8_inv h1
  subst e1
  have e2 := readU8_inv h2
  subst e2
  have hb0 : b0 < 256 := hb b0 (by simp)
  have hb1 : b1 < 256 := hb b1 (by simp)
  cases e with
  | little =>
      have hv := congrArg Prod.fst (Option.some.inj h)
      have hr := congrArg Prod.snd (Option.some.inj h)
      dsimp at hv hr
      subst hr
      rw [writeU16]
      have e0 : v % 256 = b0 := by omega
      have e3 : v / 256 % 256 = b1 := by omega
      rw [e0, e3]
      exact ⟨rfl, by omega⟩
  | big =>
      have hv := congrArg Prod.fst (Option.some.inj h)
      have hr := congrArg Prod.snd (Option.some.inj h)
      dsimp at hv hr
      subst hr
      rw [writeU16]
      have e0 : v % 256 = b1 := by omega
      have e3 : v / 256 % 256 = b0 := by omega
      rw [e0, e3]
      exact ⟨rfl, by omega⟩

theorem readU32_inv {e : Endian} {bs : Bytes} {v : Nat} {rest : Bytes}
    (h : readU32 e bs = some (v, rest)) (hb : bytesLt bs) :
    bs = writeU32 e v ++ rest ∧ v < 2 ^ 32 := by
  rw [readU32] at h
  obtain ⟨b0, bs1, h1, h⟩ := pbind_eq_some.mp h
  obtain ⟨b1, bs2, h2, h⟩ := pbind_eq_some.mp h
  obtain ⟨b2, bs3, h3, h⟩ := pbind_eq_some.mp h
  obtain ⟨b3, bs4, h4, h⟩ := pbind_eq_some.mp h
  have e1 := readU8_inv h1
  subst e1
  have e2 := readU8_inv h2
  subst e2
  have e3 := readU8_inv h3
  subst e3
  have e4 := readU8_inv h4
  subst e4
  have hb0 : b0 < 256 := hb b0 (by simp)
  have hb1 : b1 < 256 := hb b1 (by simp)
  have hb2 : b2 < 256 := hb b2 (by simp)
  have hb3 : b3 < 256 := hb b3 (by simp)
  cases e with
  | little =>
      have hv := congrArg Prod.fst (Option.some.inj h)
      have hr := congrArg Prod.snd (Option.some.inj h)
      dsimp at hv hr
      subst hr
      rw [writeU32]
      rw [u32FromLeBytes] at hv
      have q0 : v % 256 = b0 := by omega
      have q1 : v / 256 % 256 = b1 := by omega
      have q2 : v / 65536 % 256 = b2 := by omega
      have q3 : v / 16777216 % 256 = b3 := by omega
      rw [q0, q1, q2, q3]
      exact ⟨rfl, by omega⟩
  | big =>
      have hv := congrArg Prod.fst (Option.some.inj h)
      have hr := congrArg Prod.snd (Option.some.inj h)
      dsimp at hv hr
      subst hr
      rw [writeU32]
      rw [u32FromLeBytes] at hv
      have q0 : v % 256 = b3 := by omega
      have q1 : v / 256 % 256 = b2 := by omega
      have q2 : v / 65536 % 256 = b1 := by omega
      have q3 : v / 16777216 % 256 = b0 := by omega
      rw [q0, q1, q2, q3]
      exact ⟨rfl, by omega⟩

theorem readI32_inv {e : Endian} {bs : Bytes} {z : Int} {rest : Bytes}
    (h : readI32 e bs = some (z, rest)) (hb : bytesLt bs) :
    bs = writeI32 e z ++ rest := by
  rw [readI32] at h
  obtain ⟨v, bs1, h1, h⟩ := pbind_eq_some.mp h
  have hz := congrArg Prod.fst (Option.some.inj h)
  have hr := congrArg Prod.snd (Option.some.inj h)
  dsimp at hz hr
  subst hr
  obtain ⟨hbs, hv⟩ := readU32_inv h1 hb
  rw [writeI32]
  have hmod : ((z % 2 ^ 32).toNat) = v := by
    rw [← hz]
    unfold wrap32
    omega
  rw [hmod]
  exact hbs

theorem expectBytes_inv {magic bs rest : Bytes} (h : expectBytes magic bs = some rest) :
    bs = magic ++ rest := by
  rw [expectBytes] at h
  split at h
  · next hp =>
      have := Option.some.inj h
      rw [← hp, ← this]
      exact (List.take_append_drop _ _).symm
  · exact absurd h (by simp)

theorem readString_inv {e : Endian} {bs : Bytes} {s : List Nat} {rest : Bytes}
    (h : readString e bs = some (s, rest)) (hb : bytesLt bs) :
    bs = writeString e s ++ rest ∧ utf8Valid s = true ∧ s.length < 2 ^ 32 := by
  rw [readString] at h
  obtain ⟨len, bs1, h1, h⟩ := pbind_eq_some.mp h
  obtain ⟨hbs, hlen⟩ := readU32_inv h1 hb
  split at h
  · exact absurd h (by simp)
  · next hge =>
      have h' : (if utf8Valid (List.take len bs1) = true then
          some (List.take len bs1, List.drop len bs1) else none) = some (s, rest) := h
      clear h
      split at h'
      · next hutf =>
          have hs := congrArg Prod.fst (Option.some.inj h')
          have hr := congrArg Prod.snd (Option.some.inj h')
          dsimp at hs hr
          subst hs
          subst hr
          refine ⟨?_, hutf, ?_⟩
          · rw [writeString, hbs]
            have htl : (bs1.take len).length = len :=
              List.length_take_of_le (Nat.le_of_not_lt hge)
            rw [htl, List.append_assoc, List.take_append_drop]
          · rw [List.length_take_of_le (Nat.le_of_not_lt hge)]
            exact hlen
      · exact absurd h' (by simp)

theorem bytesLt_drop {bs : Bytes} (h : bytesLt bs) (n : Nat) : bytesLt (bs.drop n) :=
  fun b hb => h b (List.mem_of_mem_drop hb)

theorem readO2File_inv {e : Endian} {bs : Bytes} {f : O2File} {rest : Bytes}
    (h : readO2File e bs = some (f, rest)) (hb : bytesLt bs) :
    bs = writeU16 e 0 ++ writeI32 e f.checksum ++ writeU32 e f.uncompressed_size ++
      writeU32 e f.offset ++ writeU32 e f.compressed_size ++ rest := by
  rw [readO2File] at h
  obtain ⟨z, bs1, h1, h⟩ := pbind_eq_some.mp h
  obtain ⟨hz, h⟩ := pguard_eq_some.mp h
  subst hz
  obtain ⟨ck, bs2, h2, h⟩ := pbind_eq_some.mp h
  obtain ⟨us, bs3, h3, h⟩ := pbind_eq_some.mp h
  obtain ⟨off, bs4, h4, h⟩ := pbind_eq_some.mp h
  obtain ⟨cs, bs5, h5, h⟩ := pbind_eq_some.mp h
  have hf := congrArg Prod.fst (Option.some.inj h)
  have hr := congrArg Prod.snd (Option.some.inj h)
  dsimp at hf hr
  subst hf
  subst hr
  obtain ⟨e1, -⟩ := readU16_inv h1 hb
  have hb1 : bytesLt bs1 := by rw [e1] at hb; exact bytesLt_of_append hb
  have e2 := readI32_inv h2 hb1
  have hb2 : bytesLt bs2 := by rw [e2] at hb1; exact bytesLt_of_append hb1
  obtain ⟨e3, -⟩ := readU32_inv h3 hb2
  have hb3 : bytesLt bs3 := by rw [e3] at hb2; exact bytesLt_of_append hb2
  obtain ⟨e4, -⟩ := readU32_inv h4 hb3
  have hb4 : bytesLt bs4 := by rw [e4] at hb3; exact bytesLt_of_append hb3
  obtain ⟨e5, -⟩ := readU32_inv h5 hb4
  rw [e1, e2, e3, e4, e5]
  simp [List.append_assoc]

theorem readO2Dir_inv {e : Endian} {bs : Bytes} {d : O2Dir} {rest : Bytes}
    (h : readO2Dir e bs = some (d, rest)) (hb : bytesLt bs) :
    bs = writeU16 e 0 ++ writeU32 e 0 ++ writeU32 e 0 ++ writeU32 e d.count ++
      writeU32 e d.index ++ rest := by
  rw [readO2Dir] at h
  obtain ⟨z1, bs1, h1, h⟩ := pbind_eq_some.mp h
  obtain ⟨hz1, h⟩ := pguard_eq_some.mp h
  subst hz1
  obtain ⟨z2, bs2, h2, h⟩ := pbind_eq_some.mp h
  obtain ⟨hz2, h⟩ := pguard_eq_some.mp h
  subst hz2
  obtain ⟨z3, bs3, h3, h⟩ := pbind_eq_some.mp h
  obtain ⟨hz3, h⟩ := pguard_eq_some.mp h
  subst hz3
  obtain ⟨cnt, bs4, h4, h⟩ := pbind_eq_some.mp h
  obtain ⟨-, h⟩ := pguard_eq_some.mp h
  obtain ⟨idx, bs5, h5, h⟩ := pbind_eq_some.mp h
  have hf := congrArg Prod.fst (Option.some.inj h)
  have hr := congrArg Prod.snd (Option.some.inj h)
  dsimp at hf hr
  subst hf
  subst hr
  obtain ⟨e1, -⟩ := readU16_inv h1 hb
  have hb1 : bytesLt bs1 := by rw [e1] at hb; exact bytesLt_of_append hb
  obtain ⟨e2, -⟩ := readU32_inv h2 hb1
  have hb2 : bytesLt bs2 := by rw [e2] at hb1; exact bytesLt_of_append hb1
  obtain ⟨e3, -⟩ := readU32_inv h3 hb2
  have hb3 : bytesLt bs3 := by rw [e3] at hb2; exact bytesLt_of_append hb2
  obtain ⟨e4, -⟩ := readU32_inv h4 hb3
  have hb4 : bytesLt bs4 := by rw [e4] at hb3; exact bytesLt_of_append hb3
  obtain ⟨e5, -⟩ := readU32_inv h5 hb4
  rw [e1, e2, e3, e4, e5]
  simp [List.append_assoc]

theorem readO2Entry_inv {e : Endian} {bs : Bytes} {ent : O2Entry} {rest : Bytes}
    (h : readO2Entry e bs = some (ent, rest)) (hb : bytesLt bs) :
    bs = writeO2Entry e ent ++ rest := by
  rw [readO2Entry] at h
  obtain ⟨crc, bs1, h1, h⟩ := pbind_eq_some.mp h
  obtain ⟨tag, bs2, h2, h⟩ := pbind_eq_some.mp h
  obtain ⟨e1, -⟩ := readU32_inv h1 hb
  have hb1 : bytesLt bs1 := by rw [e1] at hb; exact bytesLt_of_append hb
  obtain ⟨e2, -⟩ := readU16_inv h2 hb1
  have hb2 : bytesLt bs2 := by rw [e2] at hb1; exact bytesLt_of_append hb1
  split at h
  · obtain ⟨f, bs3, h3, h⟩ := pbind_eq_some.mp h
    have hf := congrArg Prod.fst (Option.some.inj h)
    have hr := congrArg Prod.snd (Option.some.inj h)
    dsimp at hf hr
    subst hf
    subst hr
    have e3 := readO2File_inv h3 hb2
    rw [e1, e2, e3, writeO2Entry]
    simp [List.append_assoc]
  · obtain ⟨f, bs3, h3, h⟩ := pbind_eq_some.mp h
    have hf := congrArg Prod.fst (Option.some.inj h)
    have hr := congrArg Prod.snd (Option.some.inj h)
    dsimp at hf hr
    subst hf
    subst hr
    have e3 := readO2File_inv h3 hb2
    rw [e1, e2, e3, writeO2Entry]
    simp [List.append_assoc]
  · obtain ⟨d, bs3, h3, h⟩ := pbind_eq_some.mp h
    have hf := congrArg Prod.fst (Option.some.inj h)
    have hr := congrArg Prod.snd (Option.some.inj h)
    dsimp at hf hr
    subst hf
    subst hr
    have e3 := readO2Dir_inv h3 hb2
    rw [e1, e2, e3, writeO2Entry]
    simp [List.append_assoc]
  · exact absurd h (by simp)

theorem readO2EntriesN_inv {e : Endian} :
    ∀ {n : Nat} {bs : Bytes} {es : List O2Entry} {rest : Bytes},
      readO2EntriesN e n bs = some (es, rest) → bytesLt bs →
      bs = writeO2Entries e es ++ rest := by
  intro n
  induction n with
  | zero =>
      intro bs es rest h hb
      rw [readO2EntriesN] at h
      have hf := congrArg Prod.fst (Option.some.inj h)
      have hr := congrArg Prod.snd (Option.some.inj h)
      dsimp at hf hr
      subst hf
      subst hr
      simp [writeO2Entries]
  | succ n ih =>
      intro bs es rest h hb
      rw [readO2EntriesN] at h
      obtain ⟨ent, bs1, h1, h⟩ := pbind_eq_some.mp h
      obtain ⟨es', bs2, h2, h⟩ := pbind_eq_some.mp h
      have hf := congrArg Prod.fst (Option.some.inj h)
      have hr := congrArg Prod.snd (Option.some.inj h)
      dsimp at hf hr
      subst hf
      subst hr
      have e1 := readO2Entry_inv h1 hb
      have hb1 : bytesLt bs1 := by rw [e1] at hb; exact bytesLt_of_append hb
      have e2 := ih h2 hb1
      rw [e1, e2, writeO2Entries]
      simp [writeO2Entries]

theorem readO2Archive_inv {bs : Bytes} {arch : O2Archive} {rest : Bytes}
    (h : readO2Archive bs = some (arch, rest)) (hb : bytesLt bs) :
    bs = writeO2Archive arch ++ rest := by
  rw [readO2Archive] at h
  split at h
  · exact absurd h (by simp)
  · next e hmag =>
      have hb4 : bytesLt (bs.drop 4) := bytesLt_drop hb 4
      obtain ⟨z, bs1, h1, h⟩ := pbind_eq_some.mp h
      obtain ⟨hz, h⟩ := pguard_eq_some.mp h
      subst hz
      obtain ⟨cnt, bs2, h2, h⟩ := pbind_eq_some.mp h
      obtain ⟨-, h⟩ := pguard_eq_some.mp h
      obtain ⟨crc, bs3, h3, h⟩ := pbind_eq_some.mp h
      obtain ⟨-, h⟩ := pguard_eq_some.mp h
      obtain ⟨entries, bs4, h4, h⟩ := pbind_eq_some.mp h
      obtain ⟨-, h⟩ := pguard_eq_some.mp h
      have hf := congrArg Prod.fst (Option.some.inj h)
      have hr := congrArg Prod.snd (Option.some.inj h)
      dsimp at hf hr
      subst hf
      subst hr
      obtain ⟨e1, -⟩ := readU32_inv h1 hb4
      have hb1 : bytesLt bs1 := by rw [e1] at hb4; exact bytesLt_of_append hb4
      obtain ⟨e2, -⟩ := readU32_inv h2 hb1
      have hb2 : bytesLt bs2 := by rw [e2] at hb1; exact bytesLt_of_append hb1
      obtain ⟨e3, -⟩ := readU32_inv h3 hb2
      have hb3 : bytesLt bs3 := by rw [e3] at hb2; exact bytesLt_of_append hb2
      have e4 := readO2EntriesN_inv h4 hb3
      have hsplit : bs = bs.take 4 ++ bs.drop 4 := (List.take_append_drop _ _).symm
      split at hmag
      · next hm =>
          have he := Option.some.inj hmag
          subst he
          rw [writeO2Archive]
          dsimp
          conv_lhs => rw [hsplit]
          rw [hm, e1, e2, e3, e4]
          simp [List.append_assoc, List.cons_append]
      · split at hmag
        · next hm =>
            have he := Option.some.inj hmag
            subst he
            rw [writeO2Archive]
            dsimp
            conv_lhs => rw [hsplit]
            rw [hm, e1, e2, e3, e4]
            simp [List.append_assoc, List.cons_append]
        · exact absurd hmag (by simp)

theorem take_append_sub (w r : Bytes) :
    (w ++ r).take ((w ++ r).length - r.length) = w := by
  rw [List.length_append, Nat.add_sub_cancel]
  exact List.take_left w r

theorem readFEFile_inv {e : Endian} {bs : Bytes} {f : FEFile} {rest : Bytes}
    (h : readFEFile e bs = some (f, rest)) (hb : bytesLt bs) :
    bs = writeI32 e f.checksum ++ writeU32 e f.uncompressed_size ++
      writeU32 e f.name_offset ++ writeU32 e f.offset ++
      writeU32 e f.compressed_size ++ rest := by
  rw [readFEFile] at h
  obtain ⟨ck, bs1, h1, h⟩ := pbind_eq_some.mp h
  obtain ⟨us, bs2, h2, h⟩ := pbind_eq_some.mp h
  obtain ⟨no, bs3, h3, h⟩ := pbind_eq_some.mp h
  obtain ⟨off, bs4, h4, h⟩ := pbind_eq_some.mp h
  obtain ⟨cs, bs5, h5, h⟩ := pbind_eq_some.mp h
  have hf := congrArg Prod.fst (Option.some.inj h)
  have hr := congrArg Prod.snd (Option.some.inj h)
  dsimp at hf hr
  subst hf
  subst hr
  have e1 := readI32_inv h1 hb
  have hb1 : bytesLt bs1 := by rw [e1] at hb; exact bytesLt_of_append hb
  obtain ⟨e2, -⟩ := readU32_inv h2 hb1
  have hb2 : bytesLt bs2 := by rw [e2] at hb1; exact bytesLt_of_append hb1
  obtain ⟨e3, -⟩ := readU32_inv h3 hb2
  have hb3 : bytesLt bs3 := by rw [e3] at hb2; exact bytesLt_of_append hb2
  obtain ⟨e4, -⟩ := readU32_inv h4 hb3
  have hb4 : bytesLt bs4 := by rw [e4] at hb3; exact bytesLt_of_append hb3
  obtain ⟨e5, -⟩ := readU32_inv h5 hb4
  rw [e1, e2, e3, e4, e5]
  simp [List.append_assoc]

theorem readFEDir_inv {e : Endian} {bs : Bytes} {d : FEDir} {rest : Bytes}
    (h : readFEDir e bs = some (d, rest)) (hb : bytesLt bs) :
    bs = writeU32 e 0 ++ writeU32 e 0 ++ writeU32 e d.name_offset ++
      writeU32 e d.count ++ writeU32 e d.index ++ rest := by
  rw [readFEDir] at h
  obtain ⟨z1, bs1, h1, h⟩ := pbind_eq_some.mp h
  obtain ⟨hz1, h⟩ := pguard_eq_some.mp h
  subst hz1
  obtain ⟨z2, bs2, h2, h⟩ := pbind_eq_some.mp h
  obtain ⟨hz2, h⟩ := pguard_eq_some.mp h
  subst hz2
  obtain ⟨no, bs3, h3, h⟩ := pbind_eq_some.mp h
  obtain ⟨cnt, bs4, h4, h⟩ := pbind_eq_some.mp h
  obtain ⟨-, h⟩ := pguard_eq_some.mp h
  obtain ⟨idx, bs5, h5, h⟩ := pbind_eq_some.mp h
  have hf := congrArg Prod.fst (Option.some.inj h)
  have hr := congrArg Prod.snd (Option.some.inj h)
  dsimp at hf hr
  subst hf
  subst hr
  obtain ⟨e1, -⟩ := readU32_inv h1 hb
  have hb1 : bytesLt bs1 := by rw [e1] at hb; exact bytesLt_of_append hb
  obtain ⟨e2, -⟩ := readU32_inv h2 hb1
  have hb2 : bytesLt bs2 := by rw [e2] at hb1; exact bytesLt_of_append hb1
  obtain ⟨e3, -⟩ := readU32_inv h3 hb2
  have hb3 : bytesLt bs3 := by rw [e3] at hb2; exact bytesLt_of_append hb2
  obtain ⟨e4, -⟩ := readU32_inv h4 hb3
  have hb4 : bytesLt bs4 := by rw [e4] at hb3; exact bytesLt_of_append hb3
  obtain ⟨e5, -⟩ := readU32_inv h5 hb4
  rw [e1, e2, e3, e4, e5]
  simp [List.append_assoc]

theorem readFEEntry_inv {e : Endian} {bs : Bytes} {ent : FEEntry} {rest : Bytes}
    (h : readFEEntry e bs = some (ent, rest)) (hb : bytesLt bs) :
    bs = writeFEEntry e ent ++ rest := by
  rw [readFEEntry] at h
  obtain ⟨crc, bs1, h1, h⟩ := pbind_eq_some.mp h
  obtain ⟨tag, bs2, h2, h⟩ := pbind_eq_some.mp h
  obtain ⟨e1, -⟩ := readU32_inv h1 hb
  have hb1 : bytesLt bs1 := by rw [e1] at hb; exact bytesLt_of_append hb
  obtain ⟨e2, -⟩ := readU32_inv h2 hb1
  have hb2 : bytesLt bs2 := by rw [e2] at hb1; exact bytesLt_of_append hb1
  split at h
  · obtain ⟨f, bs3, h3, h⟩ := pbind_eq_some.mp h
    have hf := congrArg Prod.fst (Option.some.inj h)
    have hr := congrArg Prod.snd (Option.some.inj h)
    dsimp at hf hr
    subst hf
    subst hr
    have e3 := readFEFile_inv h3 hb2
    rw [e1, e2, e3, writeFEEntry]
    simp [List.append_assoc]
  · obtain ⟨f, bs3, h3, h⟩ := pbind_eq_some.mp h
    have hf := congrArg Prod.fst (Option.some.inj h)
    have hr := congrArg Prod.snd (Option.some.inj h)
    dsimp at hf hr
    subst hf
    subst hr
    have e3 := readFEFile_inv h3 hb2
    rw [e1, e2, e3, writeFEEntry]
    simp [List.append_assoc]
  · obtain ⟨d, bs3, h3, h⟩ := pbind_eq_some.mp h
    have hf := congrArg Prod.fst (Option.some.inj h)
    have hr := congrArg Prod.snd (Option.some.inj h)
    dsimp at hf hr
    subst hf
    subst hr
    have e3 := readFEDir_inv h3 hb2
    rw [e1, e2, e3, writeFEEntry]
    simp [List.append_assoc]
  · exact absurd h (by simp)

theorem readFEEntriesN_inv {e : Endian} :
    ∀ {n : Nat} {bs : Bytes} {es : List FEEntry} {rest : Bytes},
      readFEEntriesN e n bs = some (es, rest) → bytesLt bs →
      bs = writeFEEntries e es ++ rest := by
  intro n
  induction n with
  | zero =>
      intro bs es rest h hb
      rw [readFEEntriesN] at h
      have hf := congrArg Prod.fst (Option.some.inj h)
      have hr := congrArg Prod.snd (Option.some.inj h)
      dsimp at hf hr
      subst hf
      subst hr
      simp [writeFEEntries]
  | succ n ih =>
      intro bs es rest h hb
      rw [readFEEntriesN] at h
      obtain ⟨ent, bs1, h1, h⟩ := pbind_eq_some.mp h
      obtain ⟨es', bs2, h2, h⟩ := pbind_eq_some.mp h
      have hf := congrArg Prod.fst (Option.some.inj h)
      have hr := congrArg Prod.snd (Option.some.inj h)
      dsimp at hf hr
      subst hf
      subst hr
      have e1 := readFEEntry_inv h1 hb
      have hb1 : bytesLt bs1 := by rw [e1] at hb; exact bytesLt_of_append hb
      have e2 := ih h2 hb1
      rw [e1, e2, writeFEEntries]
      simp [writeFEEntries]

theorem readFEArchive_inv {bs : Bytes} {arch : FEArchive} {rest : Bytes}
    (h : readFEArchive bs = some (arch, rest)) (hb : bytesLt bs) :
    bs = writeFEArchive arch ++ rest := by
  rw [readFEArchive] at h
  split at h
  · exact absurd h (by simp)
  · next e hmag =>
      have hbd : bytesLt (bs.drop 4) := bytesLt_drop hb 4
      obtain ⟨z, bs1, h1, h⟩ := pbind_eq_some.mp h
      obtain ⟨hz, h⟩ := pguard_eq_some.mp h
      subst hz
      obtain ⟨cnt, bs2, h2, h⟩ := pbind_eq_some.mp h
      obtain ⟨-, h⟩ := pguard_eq_some.mp h
      obtain ⟨crc, bs3, h3, h⟩ := pbind_eq_some.mp h
      obtain ⟨-, h⟩ := pguard_eq_some.mp h
      obtain ⟨nlen, bs4, h4, h⟩ := pbind_eq_some.mp h
      split at h
      · exact absurd h (by simp)
      · next hlen =>
          obtain ⟨entries, bs5, h5, h⟩ := pbind_eq_some.mp h
          obtain ⟨hcrc, h⟩ := pguard_eq_some.mp h
          obtain ⟨-, h⟩ := pguard_eq_some.mp h
          obtain ⟨-, h⟩ := pguard_eq_some.mp h
          have hf := congrArg Prod.fst (Option.some.inj h)
          have hr := congrArg Prod.snd (Option.some.inj h)
          dsimp at hf hr
          subst hf
          subst hr
          obtain ⟨e1, -⟩ := readU32_inv h1 hbd
          have hb1 : bytesLt bs1 := by rw [e1] at hbd; exact bytesLt_of_append hbd
          obtain ⟨e2, -⟩ := readU32_inv h2 hb1
          have hb2 : bytesLt bs2 := by rw [e2] at hb1; exact bytesLt_of_append hb1
          obtain ⟨e3, -⟩ := readU32_inv h3 hb2
          have hb3 : bytesLt bs3 := by rw [e3] at hb2; exact bytesLt_of_append hb2
          obtain ⟨e4, -⟩ := readU32_inv h4 hb3
          have hb4 : bytesLt bs4 := by rw [e4] at hb3; exact bytesLt_of_append hb3
          have e5 := readFEEntriesN_inv h5 (bytesLt_drop hb4 nlen)
          have hnlen : (bs4.take nlen).length = nlen := by
            rw [List.length_take]
            omega
          have hbs4 : bs4 = bs4.take nlen ++ (writeFEEntries e entries ++ bs5) := by
            rw [← e5]
            exact (List.take_append_drop nlen bs4).symm
          have hcrc' : crc32 (writeFEEntries e entries) = crc := by
            rw [e5, take_append_sub] at hcrc
            exact hcrc
          have hsplit : bs = bs.take 4 ++ bs.drop 4 := (List.take_append_drop _ _).symm
          split at hmag
          · next hm =>
              have he := Option.some.inj hmag
              subst he
              rw [writeFEArchive]
              dsimp
              rw [hnlen, hcrc']
              conv_lhs => rw [hsplit]
              rw [hm, e1, e2, e3, e4]
              conv_lhs => rw [hbs4]
              simp [List.append_assoc, List.cons_append]
          · split at hmag
            · next hm =>
                have he := Option.some.inj hmag
                subst he
                rw [writeFEArchive]
                dsimp
                rw [hnlen, hcrc']
                conv_lhs => rw [hsplit]
                rw [hm, e1, e2, e3, e4]
                conv_lhs => rw [hbs4]
                simp [List.append_assoc, List.cons_append]
            · exact absurd hmag (by simp)

theorem drop_append_of_length {n : Nat} (z r : Bytes) (h : z.length = n) :
    (z ++ r).drop n = r := by
  subst h
  exact List.drop_left _ _

theorem overwriteAtStart_zeros (w r : Bytes) :
    overwriteAtStart w (zeros w.length ++ r) = w ++ r := by
  rw [overwriteAtStart]
  congr 1
  exact drop_append_of_length _ _ (by simp [zeros])

/-! ## Claim C1 -/

/-- A well-formed 66-byte Variant B archive (it loads and validates) whose
single file payload sits at offset 65 — one slack byte after the 64-byte
TOC.  TOC: magic, zero, `entries_count = 2`, `entries_crc32 = 7`; a root
directory (`count = 1`, `index = 1`) and one file entry
(`checksum = 42`, `uncompressed_size = 1`, `offset = 65`,
`compressed_size = 1`); then the slack byte 0 and the payload byte 42. -/
def c1SlackBytes : Bytes :=
  [0, 0, 4, 0, 0, 0, 0, 0, 2, 0, 0, 0, 7, 0, 0, 0,
   0, 0, 0, 0, 4, 0, 0, 0, 0, 0, 0, 0, 0, 0, 0, 0, 1, 0, 0, 0, 1, 0, 0, 0,
   9, 0, 0, 0, 0, 0, 0, 0, 42, 0, 0, 0, 1, 0, 0, 0, 65, 0, 0, 0, 1, 0, 0, 0,
   0, 42]

/-- C1 counterexample: this archive loads successfully (parse + validation)
yet rebuilding it with no updates does not reproduce the original bytes —
the rebuild streams payloads contiguously from `entries_offset` and patches
each `offset` to the cursor, so the slack byte is squeezed out (the output is
65 bytes, the input 66) and the stored `entries_crc32` is replaced by a
freshly computed one.  The claim quantifies over every well-formed archive,
so this archive refutes it. -/
theorem claim_C1_counterexample :
    (o2LoadRebuild false id (fun _ => none) c1SlackBytes).isSome = true ∧
    (o2LoadRebuild false id (fun _ => none) c1SlackBytes).map List.length = some 65 ∧
    c1SlackBytes.length = 66 ∧
    o2LoadRebuild false id (fun _ => none) c1SlackBytes ≠ some c1SlackBytes := by
  refine ⟨by decide, by decide, by decide, by decide⟩

/-- C1 (amended): the round trip holds exactly for canonically laid-out
archives.  For each variant: if the bytes parse (leaving the payload region
`rest` after the TOC), pass provider validation, map to the unified model,
and the no-update rebuild walk reproduces the parsed TOC and the payload
region unchanged — i.e. every nonempty file's stored `offset` already equals
the rebuild cursor at its visit (payloads contiguous in walk order right
after the TOC, 4-byte aligned for Variant C) and for Variant B the stored
`entries_crc32` equals the recomputed one — then `rebuild` returns exactly
the original bytes.  Variant A additionally requires the bytes to be the
canonical serialization of the parsed archive (its `is_compressed` `u32` is
read lossily: every nonzero value becomes `true` but is written back as
`1`); for Variants B and C the serialization identity is derived from the
parse itself. -/
theorem claim_C1_round_trip :
    (∀ (bs : Bytes) (arch : O1Archive) (rest : Bytes) (entries : List Entry),
      bytesLt bs →
      readO1Archive .big bs = some (arch, rest) →
      bs = writeO1Archive .big arch ++ rest →
      validate_entries (.obscure1 arch) bs.length = true →
      o1MapList bs (bs.length + 1) arch.entries = some entries →
      o1UpdateEntries (bs.length - rest.length) false id arch entries =
        some (arch, rest) →
      o1LoadRebuild false id bs = some bs) ∧
    (∀ (bs : Bytes) (arch : O2Archive) (rest : Bytes)
        (nameMap : Nat → Option (List Nat)) (entries : List Entry),
      bytesLt bs →
      readO2Archive bs = some (arch, rest) →
      validate_entries (.obscure2 arch) bs.length = true →
      o2MapEntries nameMap bs arch = some entries →
      o2UpdateEntries (bs.length - rest.length) false id arch entries =
        some (arch, rest) →
      o2LoadRebuild false id nameMap bs = some bs) ∧
    (∀ (bs : Bytes) (arch : FEArchive) (rest : Bytes) (entries : List Entry),
      bytesLt bs →
      readFEArchive bs = some (arch, rest) →
      validateEntriesFE arch bs.length = true →
      feMapEntries bs arch = some entries →
      feUpdateEntries (bs.length - rest.length) false id arch entries =
        some (arch, rest) →
      feLoadRebuild false id bs = some bs) := by
  refine ⟨?_, ?_, ?_⟩
  · intro bs arch rest entries hb h1 hinv hv hm hu
    have hlen : bs.length - rest.length = (writeO1Archive .big arch).length := by
      rw [hinv, List.length_append]
      omega
    simp only [o1LoadRebuild, h1]
    rw [if_pos hv]
    simp only [hm, hu]
    rw [hlen, overwriteAtStart_zeros, hinv]
  · intro bs arch rest nameMap entries hb h1 hv hm hu
    have hinv := readO2Archive_inv h1 hb
    have hlen : bs.length - rest.length = (writeO2Archive arch).length := by
      rw [hinv, List.length_append]
      omega
    simp only [o2LoadRebuild, h1]
    rw [if_pos hv]
    simp only [hm, hu]
    rw [hlen, overwriteAtStart_zeros, hinv]
  · intro bs arch rest entries hb h1 hv hm hu
    have hinv := readFEArchive_inv h1 hb
    have hlen : bs.length - rest.length = (writeFEArchive arch).length := by
      rw [hinv, List.length_append]
      omega
    simp only [feLoadRebuild, h1]
    rw [if_pos hv]
    simp only [hm, hu]
    rw [hlen, overwriteAtStart_zeros, hinv]

/-- A canonical one-file Variant A archive: 32-byte big-endian header
(versions 0/0, all counters 1, `data_offset = 62`), no CRC block, one
uncompressed file entry (name `"A"`, sizes 1, checksum 5) whose payload `[7]`
sits at offset 62 — exactly the end of the 62-byte TOC. -/
def c1wO1Arch : O1Archive :=
  { header := { major_version := 0, minor_version := 0, root_count := 1,
                all_count := 1, file_count := 1, data_offset := 62 },
    checksums := none,
    entries := [.file 30 { is_compressed := false, compressed_size := 1,
                           uncompressed_size := 1, checksum := 5, offset := 62,
                           name := [65] }] }

/-- The canonical Variant A archive's on-disk bytes: the serialized TOC
followed by the single payload byte. -/
def c1wO1Bytes : Bytes := writeO1Archive .big c1wO1Arch ++ [7]

/-- The unified entries the provider builds from `c1wO1Bytes`. -/
def c1wO1Entries : List Entry :=
  (o1MapList c1wO1Bytes (c1wO1Bytes.length + 1) c1wO1Arch.entries).get (by rfl)

/-- A canonical 65-byte Variant B archive: little-endian TOC (root directory
plus one file entry with payload at offset 64, right after the 64-byte TOC)
whose stored `entries_crc32` (`275241861`) is the CRC32 of the serialized
entry array. -/
def c1wO2Bytes : Bytes :=
  [0, 0, 4, 0, 0, 0, 0, 0, 2, 0, 0, 0, 133, 219, 103, 16,
   0, 0, 0, 0, 4, 0, 0, 0, 0, 0, 0, 0, 0, 0, 0, 0, 1, 0, 0, 0, 1, 0, 0, 0,
   9, 0, 0, 0, 0, 0, 0, 0, 42, 0, 0, 0, 1, 0, 0, 0, 64, 0, 0, 0, 1, 0, 0, 0,
   42]

/-- The parse of `c1wO2Bytes`. -/
def c1wO2Arch : O2Archive :=
  { endian := .little, entries_count := 2, entries_crc32 := 275241861,
    entries := [⟨0, .directory ⟨1, 1⟩⟩, ⟨9, .file ⟨42, 1, 64, 1⟩⟩] }

/-- The unified entries the provider builds from `c1wO2Bytes`. -/
def c1wO2Entries : List Entry :=
  (o2MapEntries (fun _ => none) c1wO2Bytes c1wO2Arch).get (by rfl)

/-- A canonical 84-byte Variant C archive: little-endian TOC (80 bytes,
4-byte aligned: header, a 4-byte all-NUL names blob, a root directory and one
file entry with payload `[42,0,0,0]` at offset 80) whose stored
`entries_crc32` (`2225491925`) is the CRC32 of the serialized entry array. -/
def c1wFEBytes : Bytes :=
  [0, 0, 5, 0, 0, 0, 0, 0, 2, 0, 0, 0, 213, 79, 166, 132, 4, 0, 0, 0,
   0, 0, 0, 0,
   0, 0, 0, 0, 4, 0, 0, 0, 0, 0, 0, 0, 0, 0, 0, 0, 0, 0, 0, 0,
   1, 0, 0, 0, 1, 0, 0, 0,
   9, 0, 0, 0, 0, 0, 0, 0, 42, 0, 0, 0, 4, 0, 0, 0, 0, 0, 0, 0,
   80, 0, 0, 0, 4, 0, 0, 0,
   42, 0, 0, 0]

/-- The parse of `c1wFEBytes`. -/
def c1wFEArch : FEArchive :=
  { endian := .little, entries_count := 2, entries_crc32 := 2225491925,
    names := ⟨[0, 0, 0, 0]⟩,
    entries := [⟨0, .directory ⟨0, 1, 1⟩⟩, ⟨9, .file ⟨42, 4, 0, 80, 4⟩⟩] }

/-- The unified entries the provider builds from `c1wFEBytes`. -/
def c1wFEEntries : List Entry :=
  (feMapEntries c1wFEBytes c1wFEArch).get (by rfl)

/-- `c1wFEBytes` parses to `c1wFEArch` with the payload left over.  (Proved
in small steps: one `decide` per primitive read and the entry-array CRC32
split into two 28-byte folds via `List.foldl_append`, keeping every single
kernel evaluation small.) -/
theorem c1wFEParse :
    readFEArchive c1wFEBytes = some (c1wFEArch, [42, 0, 0, 0]) := by
  have hm4 : c1wFEBytes.take 4 = [0, 0, 5, 0] := by decide
  have r1 : readU32 Endian.little (c1wFEBytes.drop 4) =
      some (0, c1wFEBytes.drop 8) := by decide
  have r2 : readU32 Endian.little (c1wFEBytes.drop 8) =
      some (2, c1wFEBytes.drop 12) := by decide
  have r3 : readU32 Endian.little (c1wFEBytes.drop 12) =
      some (2225491925, c1wFEBytes.drop 16) := by decide
  have r4 : readU32 Endian.little (c1wFEBytes.drop 16) =
      some (4, c1wFEBytes.drop 20) := by decide
  have hl : (c1wFEBytes.drop 20).length = 64 := by decide
  have hlen0 : c1wFEBytes.length = 84 := by decide
  have hnames : (c1wFEBytes.drop 20).take 4 = [0, 0, 0, 0] := by decide
  have hE : readFEEntriesN Endian.little 2 (c1wFEBytes.drop 24) =
      some ([⟨0, .directory ⟨0, 1, 1⟩⟩, ⟨9, .file ⟨42, 4, 0, 80, 4⟩⟩],
        c1wFEBytes.drop 80) := by decide
  have hl2 : (c1wFEBytes.drop 24).length = 60 := by decide
  have hl3 : (c1wFEBytes.drop 80).length = 4 := by decide
  have e56 : (c1wFEBytes.drop 24).take 56 =
      [0, 0, 0, 0, 4, 0, 0, 0, 0, 0, 0, 0, 0, 0, 0, 0, 0, 0, 0, 0,
       1, 0, 0, 0, 1, 0, 0, 0] ++
      [9, 0, 0, 0, 0, 0, 0, 0, 42, 0, 0, 0, 4, 0, 0, 0, 0, 0, 0, 0,
       80, 0, 0, 0, 4, 0, 0, 0] := by decide
  have f1 : List.foldl crc32Byte 0xFFFFFFFF
      [0, 0, 0, 0, 4, 0, 0, 0, 0, 0, 0, 0, 0, 0, 0, 0, 0, 0, 0, 0,
       1, 0, 0, 0, 1, 0, 0, 0] = 1654616498 := by decide
  have f2 : List.foldl crc32Byte 1654616498
      [9, 0, 0, 0, 0, 0, 0, 0, 42, 0, 0, 0, 4, 0, 0, 0, 0, 0, 0, 0,
       80, 0, 0, 0, 4, 0, 0, 0] = 2069475370 := by decide
  have hcrc : crc32 ((c1wFEBytes.drop 24).take 56) = 2225491925 := by
    rw [e56, crc32, List.foldl_append, f1, f2]
    decide
  have hroot : feHasRootEntry
      [⟨0, .directory ⟨0, 1, 1⟩⟩, ⟨9, .file ⟨42, 4, 0, 80, 4⟩⟩] = true := by decide
  have hval : FENames.validate_name_offsets ⟨[0, 0, 0, 0]⟩
      [⟨0, .directory ⟨0, 1, 1⟩⟩, ⟨9, .file ⟨42, 4, 0, 80, 4⟩⟩] = true := by decide
  have hrest : c1wFEBytes.drop 80 = [42, 0, 0, 0] := by decide
  simp [readFEArchive, hm4, r1, r2, r3, r4, hl, hlen0, hnames, hE, hl2, hl3, hcrc,
        hroot, hval, hrest, pbind, pguard, c1wFEArch]

/-- Witness for C1 (amended): the three canonical archives above — one per
variant — rebuild to exactly their original bytes. -/
theorem claim_C1_round_trip_witness :
    o1LoadRebuild false id c1wO1Bytes = some c1wO1Bytes ∧
    o2LoadRebuild false id (fun _ => none) c1wO2Bytes = some c1wO2Bytes ∧
    feLoadRebuild false id c1wFEBytes = some c1wFEBytes := by
  refine ⟨?_, ?_, ?_⟩
  · exact claim_C1_round_trip.1 c1wO1Bytes c1wO1Arch [7] c1wO1Entries
      (by show ∀ b ∈ c1wO1Bytes, b < 256; decide) (by rfl) (by rfl) (by rfl)
      (by rfl) (by rfl)
  · exact claim_C1_round_trip.2.1 c1wO2Bytes c1wO2Arch [42] (fun _ => none)
      c1wO2Entries (by show ∀ b ∈ c1wO2Bytes, b < 256; decide) (by decide)
      (by decide) (by rfl) (by decide)
  · exact claim_C1_round_trip.2.2 c1wFEBytes c1wFEArch [42, 0, 0, 0] c1wFEEntries
      (by show ∀ b ∈ c1wFEBytes, b < 256; decide) c1wFEParse (by decide) (by rfl)
      (by decide)

/-! ## Claim C3 -/

/-- C3 counterexample: autodetection on the Variant C magics
`00 00 05 00 00 00 00 00` and `00 05 00 00 00 00 00 00` returns `none`, not a
Variant C result — indeed the `Game` type of the source has no Variant C
member at all — contradicting the claim that `detect_variant` yields
Variant C for these prefixes. -/
theorem claim_C3_counterexample :
    try_detect_game [0x00, 0x00, 0x05, 0x00, 0x00, 0x00, 0x00, 0x00] = none ∧
    try_detect_game [0x00, 0x05, 0x00, 0x00, 0x00, 0x00, 0x00, 0x00] = none := by
  decide

/-- C3 (amended): for every 8-byte prefix, autodetection returns Variant A
(`Obscure1`) exactly for `"HV PackF"`, Variant B (`Obscure2`) exactly for the
two Variant B magics (little- and big-endian), and `none` for everything
else — including all-zero input and the Variant C magics. -/
theorem claim_C3_detect_variant (buf : List Nat) :
    (try_detect_game buf = some Game.obscure1 ↔
      buf = [0x48, 0x56, 0x20, 0x50, 0x61, 0x63, 0x6B, 0x46]) ∧
    (try_detect_game buf = some Game.obscure2 ↔
      (buf = [0x00, 0x00, 0x04, 0x00, 0x00, 0x00, 0x00, 0x00] ∨
       buf = [0x00, 0x04, 0x00, 0x00, 0x00, 0x00, 0x00, 0x00])) ∧
    try_detect_game (List.replicate 8 0) = none := by
  refine ⟨?_, ?_, by decide⟩ <;>
  · unfold try_detect_game
    split_ifs with h1 h2 <;> simp_all

/-! ## Claim C4 -/

/-- A file entry whose stored checksum (1) differs from the wrapping sum of
its raw bytes (0). -/
def c4BadFile : FileEntry :=
  { name := [97], compression_info := none, checksum := 1, endian := .little,
    raw_bytes := [], update := none }

/-- An archive whose only top-level entry is a directory holding the bad
file, so the mismatch is nested one level down. -/
def c4Entries : List Entry := [.dir [100] [.file c4BadFile]]

/-- C4: `entries_checksum_match` is claimed to be `true` iff every file entry
anywhere in the entry tree matches its checksum, but the source iterates only
the top-level entries and returns `true` for every directory without
recursing: on an archive whose single top-level directory contains a file
with a wrong checksum it still returns `true`, though that file fails
`checksum_match` and the spec-faithful recursive check is `false`. -/
theorem claim_C4_code_bug :
    entries_checksum_match c4Entries = true ∧
    entriesAllFilesChecksumMatch c4Entries = false ∧
    c4BadFile.checksum_match = false := by
  decide

/-! ## Claim C9 -/

/-- A one-byte names blob: the single byte `A` (0x41), with no NUL anywhere. -/
def c9Names : FENames := { bytes := [65] }

/-- Two entries: a directory whose `name_offset` equals the blob length (1),
and a file whose `name_offset` is 0, so its name run reaches the end of the
blob without a terminating NUL. -/
def c9Entries : List FEEntry :=
  [ { name_crc32 := 0,
      kind := .directory { name_offset := 1, count := 1, index := 1 } },
    { name_crc32 := 7,
      kind := .file { checksum := 0, uncompressed_size := 4, name_offset := 0,
                      offset := 16, compressed_size := 4 } } ]

/-- C9 counterexample: the claim says an entry whose `name_offset` equals the
blob length, or whose name run reaches the end of the blob with no
terminating NUL, is rejected — but `validate_name_offsets` accepts this pair
of entries (the offset check is strict `>` and the first `split` chunk is
taken without requiring a NUL terminator). -/
theorem claim_C9_counterexample :
    c9Names.validate_name_offsets c9Entries = true ∧
    (c9Entries.map FEEntry.nameOffset) = [1, 0] ∧
    c9Names.bytes.length = 1 ∧
    c9Names.bytes.contains 0 = false := by
  decide

/-- C9 (amended): `validate_name_offsets` succeeds exactly when every entry's
`name_offset` is at most (not strictly inside) the names-blob length and the
bytes from that offset up to the first NUL — or up to the end of the blob if
no NUL follows — form valid UTF-8; NUL termination itself is not required,
and `name_offset` equal to the blob length is accepted (empty name). -/
theorem claim_C9_name_offsets (names : FENames) (entries : List FEEntry) :
    names.validate_name_offsets entries = true ↔
      ∀ e ∈ entries, e.nameOffset ≤ names.bytes.length ∧
        utf8Valid (firstSplitAtNul (names.bytes.drop e.nameOffset)) = true := by
  rw [FENames.validate_name_offsets, List.all_eq_true]
  constructor
  · intro h e he
    have h1 := h e he
    by_cases hlt : e.nameOffset > names.bytes.length
    · simp [hlt] at h1
    · simp only [hlt, if_false] at h1
      exact ⟨Nat.le_of_not_lt hlt, h1⟩
  · intro h e he
    obtain ⟨h1, h2⟩ := h e he
    simp [Nat.not_lt.mpr h1, h2]

/-! ## Claim C5 -/

/-- A unified file entry carrying an inline 3-byte update; the original was
LZO-compressed. -/
def c5U : FileEntry :=
  { name := [97], compression_info := some ⟨4, .lzo⟩, checksum := 3,
    endian := .little, raw_bytes := [1, 1, 1, 0], update := some [9, 8, 7] }

/-- The matching raw entries in each variant. -/
def c5O1 : O1File :=
  { is_compressed := true, compressed_size := 4, uncompressed_size := 4,
    checksum := 3, offset := 77, name := [97] }

def c5O2 : O2File :=
  { checksum := 3, uncompressed_size := 4, offset := 77, compressed_size := 4 }

def c5FE : FEFile :=
  { checksum := 3, uncompressed_size := 4, name_offset := 0, offset := 77,
    compressed_size := 4 }

/-- C5 counterexample: a Variant B `FileCompressed` entry updated with
`skip_compression = true` gets plaintext written and its sizes and checksum
rewritten, but the rewritten TOC entry still carries the `FileCompressed`
kind tag — the updater mutates only the inner file struct and never changes
the discriminant, contradicting the claim that the entry is marked
uncompressed in Variants B and C. -/
theorem claim_C5_counterexample :
    o2UpdEntry true id 1 0 (.file c5U) [⟨5, .fileCompressed c5O2⟩] ⟨100, []⟩ =
      some ([⟨5, .fileCompressed
               { checksum := 24, uncompressed_size := 3, offset := 100,
                 compressed_size := 3 }⟩],
            ⟨103, [9, 8, 7]⟩) := by
  decide

/-- C5 (amended): during rebuild, for every file entry with an update
attached, a nonzero original `uncompressed_size` (empty entries are skipped
before the update is consulted), matching original/unified checksums where
the variant asserts them (B and C), and `skip_compression` true or the
original/unified entry not compressed: the plaintext is written to the sink,
`compressed_size` and `uncompressed_size` are both set to the plaintext
length, the checksum becomes the wrapping sum of the plaintext
(little-endian for Variants A and B, archive endian for C), and the entry is
marked uncompressed only in Variant A (`is_compressed := false`); for
Variants B and C the kind tag is left exactly as it was — a `FileCompressed`
entry stays `FileCompressed` in the rewritten TOC. -/
theorem claim_C5_plaintext_update (skip : Bool) (compress : List Nat → List Nat)
    (endian : Endian) (o1 : O1File) (o2 : O2File) (fe : FEFile) (u : FileEntry)
    (bytes : List Nat) (st : UpdState) (hupd : u.update = some bytes) :
    (o1.uncompressed_size ≠ 0 → (skip || !o1.is_compressed) = true →
      o1ProcessFile skip compress o1 u st =
        ({ o1 with offset := st.offset, compressed_size := bytes.length % 2 ^ 32,
                   uncompressed_size := bytes.length % 2 ^ 32, is_compressed := false,
                   checksum := bytes_sum_endian bytes .little },
         ⟨uadd32 st.offset bytes.length, st.out ++ bytes⟩)) ∧
    (o2.checksum = u.checksum → o2.uncompressed_size ≠ 0 →
      (skip || !u.is_compressed) = true →
      o2ProcessFile skip compress o2 u st =
        some ({ o2 with offset := st.offset, compressed_size := bytes.length % 2 ^ 32,
                        uncompressed_size := bytes.length % 2 ^ 32,
                        checksum := bytes_sum bytes },
              ⟨uadd32 st.offset bytes.length, st.out ++ bytes⟩)) ∧
    (fe.checksum = u.checksum → fe.uncompressed_size ≠ 0 →
      (skip || !u.is_compressed) = true →
      feProcessFile skip compress endian fe u st =
        some ({ fe with offset := st.offset, compressed_size := bytes.length % 2 ^ 32,
                        uncompressed_size := bytes.length % 2 ^ 32,
                        checksum := bytes_sum_endian bytes endian },
              ⟨uadd32 st.offset bytes.length, st.out ++ bytes⟩)) ∧
    (∀ (fuel idx : Nat) (entries : List O2Entry) (oe : O2Entry) (f : O2File),
      entries[idx]? = some oe → oe.kind = .fileCompressed f →
      o2UpdEntry skip compress (fuel + 1) idx (.file u) entries st =
        (o2ProcessFile skip compress f u st).map
          (fun p => (entries.set idx { oe with kind := .fileCompressed p.1 }, p.2))) ∧
    (∀ (fuel idx : Nat) (entries : List FEEntry) (oe : FEEntry) (f : FEFile),
      entries[idx]? = some oe → oe.kind = .fileCompressed f →
      feUpdEntry skip compress endian (fuel + 1) idx (.file u) entries st =
        (feProcessFile skip compress endian f u st).map
          (fun p => (entries.set idx { oe with kind := .fileCompressed p.1 }, fePad p.2))) := by
  refine ⟨?_, ?_, ?_, ?_, ?_⟩
  · intro h1 h2
    rw [o1ProcessFile]
    simp only [beq_iff_eq, h1, if_false, hupd, h2, if_true]
  · intro h0 h1 h2
    rw [o2ProcessFile]
    simp only [h0, ne_eq, not_true_eq_false, if_false, beq_iff_eq, h1, hupd, h2, if_true]
  · intro h0 h1 h2
    rw [feProcessFile]
    simp only [h0, ne_eq, not_true_eq_false, if_false, beq_iff_eq, h1, hupd, h2, if_true]
  · intro fuel idx entries oe f he hk
    simp only [o2UpdEntry, he, Option.some_bind, hk, O2Kind.withFile]
  · intro fuel idx entries oe f he hk
    simp only [feUpdEntry, he, Option.some_bind, hk, FEKind.withFile]

/-- C5 witness: the amended statement applied to the concrete entries above
(update `[9, 8, 7]`, `skip_compression = true`), with every hypothesis
discharged. -/
theorem claim_C5_plaintext_update_witness :
    (o1ProcessFile true id c5O1 c5U ⟨100, []⟩ =
      ({ is_compressed := false, compressed_size := 3, uncompressed_size := 3,
         checksum := 24, offset := 100, name := [97] },
       ⟨103, [9, 8, 7]⟩)) ∧
    (o2ProcessFile true id c5O2 c5U ⟨100, []⟩ =
      some ({ checksum := 24, uncompressed_size := 3, offset := 100,
              compressed_size := 3 },
            ⟨103, [9, 8, 7]⟩)) ∧
    (feProcessFile true id .big c5FE c5U ⟨100, []⟩ =
      some ({ checksum := 24, uncompressed_size := 3, name_offset := 0, offset := 100,
              compressed_size := 3 },
            ⟨103, [9, 8, 7]⟩)) ∧
    (feUpdEntry true id .big 1 0 (.file c5U) [⟨5, .fileCompressed c5FE⟩] ⟨100, []⟩ =
      some ([⟨5, .fileCompressed
               { checksum := 24, uncompressed_size := 3, name_offset := 0,
                 offset := 100, compressed_size := 3 }⟩],
            ⟨104, [9, 8, 7, 0]⟩)) := by
  obtain ⟨h1, h2, h3, _, h5⟩ :=
    claim_C5_plaintext_update true id .big c5O1 c5O2 c5FE c5U [9, 8, 7] ⟨100, []⟩ rfl
  refine ⟨?_, ?_, ?_, ?_⟩
  · have := h1 (by decide) (by decide)
    rw [this]; decide
  · have := h2 (by decide) (by decide) (by decide)
    rw [this]; decide
  · have := h3 (by decide) (by decide) (by decide)
    rw [this]; decide
  · have := h5 0 0 [⟨5, .fileCompressed c5FE⟩] ⟨5, .fileCompressed c5FE⟩ c5FE
      (by decide) (by decide)
    rw [this]; decide

/-! ## Claim C6 -/

/-- A Variant A archive with `minor_version = 1` and a CRC block. -/
def c6Arch : O1Archive :=
  { header := { major_version := 1, minor_version := 1, root_count := 1, all_count := 1,
                file_count := 1, data_offset := 40 },
    checksums := some { header := 11, entries := 22 },
    entries := [ .file 26 { is_compressed := false, compressed_size := 1,
                            uncompressed_size := 1, checksum := 5, offset := 40,
                            name := [97] } ] }

/-- The matching unified tree with an update attached to the single file. -/
def c6Unified : List Entry :=
  [ .file { name := [97], compression_info := none, checksum := 5, endian := .little,
            raw_bytes := [5], update := some [9] } ]

/-- A Variant B archive and unified tree for the recompute witness. -/
def c6O2Arch : O2Archive :=
  { endian := .little, entries_count := 2, entries_crc32 := 77,
    entries := [ { name_crc32 := 0, kind := .directory { count := 1, index := 1 } },
                 { name_crc32 := 9,
                   kind := .file { checksum := 3, uncompressed_size := 1, offset := 60,
                                   compressed_size := 1 } } ] }

def c6O2Unified : List Entry :=
  [ .file { name := [97], compression_info := none, checksum := 3, endian := .little,
            raw_bytes := [3], update := none } ]

/-- The Variant B archive after its rebuild walk: the file offset patched to
the cursor and the CRC recomputed by `update_checksums`. -/
def c6O2Arch' : O2Archive :=
  O2Archive.update_checksums
    { c6O2Arch with
        entries := [ { name_crc32 := 0, kind := .directory { count := 1, index := 1 } },
                     { name_crc32 := 9,
                       kind := .file { checksum := 3, uncompressed_size := 1, offset := 56,
                                       compressed_size := 1 } } ] }

/-- C6 counterexample: rebuilding the Variant A archive `c6Arch`
(`minor_version = 1`) with an updated entry leaves the CRC block exactly as
loaded (`header = 11`, `entries = 22`) even though the rewritten entry array
no longer hashes to 22 — `update_checksums` exists but the Variant A rebuild
path never calls it, so the rebuilt archive carries CRCs that do not match
its rewritten TOC, contrary to the claim. -/
theorem claim_C6_counterexample :
    (o1UpdateEntries 40 false id c6Arch c6Unified).map
        (fun p => (p.1.checksums, p.2)) =
      some (some { header := 11, entries := 22 }, [9]) ∧
    (o1UpdateEntries 40 false id c6Arch c6Unified).map
        (fun p => crc32 (writeO1Entries .big p.1.entries) == 22) = some false ∧
    (o1UpdateEntries 40 false id c6Arch c6Unified).map
        (fun p => ((p.1.update_checksums .big).checksums ==
          p.1.checksums)) = some false := by
  refine ⟨by decide, by decide, by decide⟩

/-- C6 (amended): after the payload phase, Variant B's `update_entries`
recomputes `entries_crc32` over the serialized entry array with the archive's
endian, and Variant C's serializer ignores the stored CRC and embeds the
recomputed one (so for both, a rebuilt archive carries a CRC matching its
rewritten TOC); Variant A's rebuild path, however, never recomputes its CRC
block — `update_entries` passes the loaded `checksums` through unchanged even
when `minor_version = 1` and entries were updated. -/
theorem claim_C6_toc_crc_recompute (wo : Nat) (skip : Bool)
    (compress : List Nat → List Nat) (arch2 : O2Archive) (archA : O1Archive)
    (archC : FEArchive) (entries entriesA : List Entry) (c : Nat) :
    (∀ arch' out, o2UpdateEntries wo skip compress arch2 entries = some (arch', out) →
      arch'.entries_crc32 = crc32 (writeO2Entries arch'.endian arch'.entries)) ∧
    writeFEArchive { archC with entries_crc32 := c } = writeFEArchive archC ∧
    (∀ arch' out, o1UpdateEntries wo skip compress archA entriesA = some (arch', out) →
      arch'.checksums = archA.checksums) := by
  refine ⟨?_, by simp [writeFEArchive], ?_⟩
  · intro arch' out h
    rw [o2UpdateEntries] at h
    split at h
    · exact absurd h (by simp)
    · split at h
      · split at h
        · obtain ⟨p, -, hp⟩ := Option.map_eq_some'.mp h
          simp only [Prod.mk.injEq] at hp
          obtain ⟨h1, -⟩ := hp
          subst h1
          rfl
        · exact absurd h (by simp)
      · exact absurd h (by simp)
  · intro arch' out h
    rw [o1UpdateEntries] at h
    split at h
    · exact absurd h (by simp)
    · obtain ⟨p, -, hp⟩ := Option.map_eq_some'.mp h
      simp only [Prod.mk.injEq] at hp
      obtain ⟨h1, -⟩ := hp
      subst h1
      rfl

/-- C6 witness: the amended statement at the concrete archives above — the
rebuilt Variant B TOC carries the freshly computed CRC, the Variant C
serialization is independent of a stale stored CRC, and the Variant A rebuild
passes the loaded CRC block through unchanged. -/
theorem claim_C6_toc_crc_recompute_witness :
    c6O2Arch'.entries_crc32 = crc32 (writeO2Entries c6O2Arch'.endian c6O2Arch'.entries) ∧
    writeFEArchive { endian := .little, entries_count := 1, entries_crc32 := 123,
                     names := { bytes := [97, 0] },
                     entries := [ { name_crc32 := 0,
                                    kind := .directory { name_offset := 0, count := 1,
                                                         index := 1 } } ] } =
      writeFEArchive { endian := .little, entries_count := 1, entries_crc32 := 456,
                       names := { bytes := [97, 0] },
                       entries := [ { name_crc32 := 0,
                                      kind := .directory { name_offset := 0, count := 1,
                                                           index := 1 } } ] } ∧
    (o1UpdateEntries 40 false id c6Arch c6Unified).map (fun p => p.1.checksums) =
      some c6Arch.checksums := by
  obtain ⟨h1, h2, -⟩ := claim_C6_toc_crc_recompute 56 false id c6O2Arch c6Arch
    { endian := .little, entries_count := 1, entries_crc32 := 456,
      names := { bytes := [97, 0] },
      entries := [ { name_crc32 := 0,
                     kind := .directory { name_offset := 0, count := 1, index := 1 } } ] }
    c6O2Unified c6Unified 123
  obtain ⟨-, -, h3⟩ := claim_C6_toc_crc_recompute 40 false id c6O2Arch c6Arch
    { endian := .little, entries_count := 1, entries_crc32 := 456,
      names := { bytes := [97, 0] },
      entries := [ { name_crc32 := 0,
                     kind := .directory { name_offset := 0, count := 1, index := 1 } } ] }
    c6O2Unified c6Unified 123
  refine ⟨?_, by simpa using h2, ?_⟩
  · have hw : o2UpdateEntries 56 false id c6O2Arch c6O2Unified =
        some (c6O2Arch', [3]) := by decide
    exact h1 c6O2Arch' [3] hw
  · cases ho : o1UpdateEntries 40 false id c6Arch c6Unified with
    | none =>
        have hs : (o1UpdateEntries 40 false id c6Arch c6Unified).isSome = true := by decide
        rw [ho] at hs
        exact absurd hs (by simp)
    | some p =>
        have hc := h3 p.1 p.2 (by rw [ho])
        simp [ho, hc]

/-! ## Claim C7 -/

mutual

/-- All raw file entries in a Variant A entry (the tree flattened), used to
state which entries `validate_entries` inspects. -/
def O1Entry.files : O1Entry → List O1File
  | .file _ f => [f]
  | .dir _ _ es => O1Entry.filesList es

/-- All raw file entries under a list of Variant A entries. -/
def O1Entry.filesList : List O1Entry → List O1File
  | [] => []
  | e :: es => O1Entry.files e ++ O1Entry.filesList es

end

mutual

theorem o1CheckEntry_iff (len : Nat) :
    ∀ e : O1Entry, o1CheckEntry len e = true ↔
      ∀ f ∈ O1Entry.files e,
        f.uncompressed_size = 0 ∨ uadd32 f.offset f.compressed_size ≤ len
  | .file sz f => by
      simp [o1CheckEntry, O1Entry.files]
  | .dir sz n es => by
      rw [show o1CheckEntry len (.dir sz n es) = o1CheckEntries len es from rfl,
        show O1Entry.files (.dir sz n es) = O1Entry.filesList es from rfl]
      exact o1CheckEntries_iff len es

theorem o1CheckEntries_iff (len : Nat) :
    ∀ es : List O1Entry, o1CheckEntries len es = true ↔
      ∀ f ∈ O1Entry.filesList es,
        f.uncompressed_size = 0 ∨ uadd32 f.offset f.compressed_size ≤ len
  | [] => by simp [o1CheckEntries, O1Entry.filesList]
  | e :: es => by
      rw [show o1CheckEntries len (e :: es) =
          (o1CheckEntry len e && o1CheckEntries len es) from rfl,
        show O1Entry.filesList (e :: es) = O1Entry.files e ++ O1Entry.filesList es from rfl]
      rw [Bool.and_eq_true, o1CheckEntry_iff len e, o1CheckEntries_iff len es]
      constructor
      · rintro ⟨h1, h2⟩ f hf
        rcases List.mem_append.mp hf with hf | hf
        · exact h1 f hf
        · exact h2 f hf
      · intro h
        exact ⟨fun f hf => h f (List.mem_append.mpr (Or.inl hf)),
          fun f hf => h f (List.mem_append.mpr (Or.inr hf))⟩

end

/-- A Variant B file entry with `uncompressed_size = 0` and garbage offset
and size that do not fit in a 20-byte archive. -/
def c7EmptyGarbageFile : O2Entry :=
  { name_crc32 := 5,
    kind := .file { checksum := 0, uncompressed_size := 0, offset := 50,
                    compressed_size := 100 } }

/-- A Variant B TOC holding the root directory and the empty garbage file. -/
def c7O2Archive : O2Archive :=
  { endian := .little, entries_count := 2, entries_crc32 := 1,
    entries := [ { name_crc32 := 0, kind := .directory { count := 1, index := 1 } },
                 c7EmptyGarbageFile ] }

/-- The same garbage geometry as a Variant A file entry. -/
def c7O1Archive : O1Archive :=
  { header := { major_version := 1, minor_version := 0, root_count := 1, all_count := 1,
                file_count := 1, data_offset := 32 },
    checksums := none,
    entries := [ .file 25 { is_compressed := false, compressed_size := 100,
                            uncompressed_size := 0, checksum := 0, offset := 50,
                            name := [97] } ] }

/-- C7 counterexample: the claim says file entries with
`uncompressed_size == 0` are ignored by validation in every variant, but the
Variant B branch of `validate_entries` has no such exemption: an archive of
length 20 holding an empty file with garbage offset/size is rejected
(`validate_entries` is `false`), while the identical geometry in Variant A is
ignored and accepted. -/
theorem claim_C7_counterexample :
    validate_entries (.obscure2 c7O2Archive) 20 = false ∧
    validate_entries (.obscure1 c7O1Archive) 20 = true := by
  decide

/-- C7 (amended): validation enforces the wrapped 32-bit bound
`offset + compressed_size ≤ archive_length` — with the empty-file exemption
applying only to Variant A: a Variant A archive validates exactly when every
file entry in its tree is empty (`uncompressed_size = 0`) or within bounds,
while a Variant B archive validates exactly when every `File` or
`FileCompressed` entry of its flat array is within bounds, empty or not. -/
theorem claim_C7_validation (arch1 : O1Archive) (arch2 : O2Archive) (len : Nat) :
    (validate_entries (.obscure1 arch1) len = true ↔
      ∀ f ∈ O1Entry.filesList arch1.entries,
        f.uncompressed_size = 0 ∨ uadd32 f.offset f.compressed_size ≤ len) ∧
    (validate_entries (.obscure2 arch2) len = true ↔
      ∀ e ∈ arch2.entries, ∀ f : O2File,
        (e.kind = .file f ∨ e.kind = .fileCompressed f) →
          uadd32 f.offset f.compressed_size ≤ len) := by
  constructor
  · exact o1CheckEntries_iff len arch1.entries
  · rw [show validate_entries (.obscure2 arch2) len =
        (arch2.entries.all fun e =>
          match e.kind with
          | .file f => decide (uadd32 f.offset f.compressed_size ≤ len)
          | .fileCompressed f => decide (uadd32 f.offset f.compressed_size ≤ len)
          | .directory _ => true) from rfl, List.all_eq_true]
    constructor
    · intro h e he f hf
      have h1 := h e he
      rcases hf with hf | hf <;> rw [hf] at h1 <;> simpa using h1
    · intro h e he
      match hk : e.kind with
      | .file f => simpa using h e he f (Or.inl hk)
      | .fileCompressed f => simpa using h e he f (Or.inr hk)
      | .directory d => rfl

/-! ## Claim C10 -/

/-- A Variant B file entry whose mathematical `offset + compressed_size` is
`2^32 + 1`. -/
def c10File : O2File :=
  { checksum := 0, uncompressed_size := 5, offset := 4294967295, compressed_size := 2 }

/-- A parsed Variant B TOC containing that entry. -/
def c10Archive : O2Archive :=
  { endian := .little, entries_count := 2, entries_crc32 := 1,
    entries := [ { name_crc32 := 0, kind := .directory { count := 1, index := 1 } },
                 { name_crc32 := 9, kind := .file c10File } ] }

/-- C10: the provider's bounds check computes `offset + compressed_size` in
32-bit wrapping arithmetic: for this TOC the mathematical sum is `2^32 + 1`
(beyond any `u32` archive length and far beyond the archive's 100 bytes), yet
the wrapped sum is 1, so `validate_entries` accepts the archive even though
the entry's payload range lies past the end of the file. -/
theorem claim_C10_wrapping_bounds_check :
    validate_entries (.obscure2 c10Archive) 100 = true ∧
    c10File.offset + c10File.compressed_size = 2 ^ 32 + 1 ∧
    100 < c10File.offset + c10File.compressed_size ∧
    uadd32 c10File.offset c10File.compressed_size = 1 := by
  decide

/-! ## Claim C8 -/

/-- A Variant A header whose `root_count`, `all_count` and `file_count` are 1
but whose `data_offset` is 0 (big-endian encoding, as the provider reads
Variant A with `read_be`). -/
def c8HeaderBytes : Bytes :=
  hvMagic ++ [0, 0, 0, 0, 0, 0, 0, 1, 0, 0, 0, 1, 0, 0, 0, 1, 0, 0, 0, 0]

/-- C8: headers with `root_count = 0`, `all_count = 0` or `file_count = 0`
are rejected as the claim says, but a header whose `data_offset` is 0 with
the other three fields positive parses successfully — the assert attached to
the `data_offset` field in the source re-checks `file_count > 0` instead of
`data_offset > 0`, so the claimed rejection does not happen. -/
theorem claim_C8_code_bug :
    readO1Header .big c8HeaderBytes =
      some ({ major_version := 0, minor_version := 0, root_count := 1, all_count := 1,
              file_count := 1, data_offset := 0 }, []) ∧
    readO1Header .big
      (hvMagic ++ [0, 0, 0, 0, 0, 0, 0, 0, 0, 0, 0, 1, 0, 0, 0, 1, 0, 0, 0, 5]) = none ∧
    readO1Header .big
      (hvMagic ++ [0, 0, 0, 0, 0, 0, 0, 1, 0, 0, 0, 0, 0, 0, 0, 1, 0, 0, 0, 5]) = none ∧
    readO1Header .big
      (hvMagic ++ [0, 0, 0, 0, 0, 0, 0, 1, 0, 0, 0, 1, 0, 0, 0, 0, 0, 0, 0, 5]) = none := by
  decide

end Hvp
